import Mathlib

/-!
Verification of the Request Governance Layer of `rust-ai-toolkit`:
the per-provider sliding-window rate limiter with exponential backoff
(`src/utils/rate_limiter.rs`) and the bounded TTL response cache
(`src/ai/cache.rs`).

The Rust code is shallowly embedded:
* `Instant` timestamps of the rate limiter become `Int` (seconds);
  `Instant - Duration::from_secs(60)` becomes integer subtraction.
* `Instant` creation times of the cache become `Nat` (seconds) and
  `elapsed()` becomes truncated `Nat` subtraction (a monotonic clock
  never runs backwards, and `u64`/`usize` saturating subtraction is
  `Nat` subtraction).
* The backoff arithmetic that Rust performs on `f32`
  (`last * 2.0`, `2.0f32.powi n`, clamped at `60000`) is modelled as
  exact natural-number arithmetic: every value that can feed those
  expressions below the clamp is at most `120000 < 2^24`, hence exactly
  representable in `f32`, and `1000 * 2^n = 125 * 2^(n+3)` is exactly
  representable whenever it is below the clamp handling threshold, so
  the `f32` computation agrees with the `Nat` one on the whole modelled
  range.
* `HashMap` becomes an association list with at most one binding per
  key (`HashMap::remove` removes every binding of the key, of which at
  most one exists); `VecDeque` becomes a `List` with its front at the
  head.  `HashMap` iteration order in `clean` is unspecified in Rust;
  the model iterates in list order.
* The 64-bit `DefaultHasher` fingerprint `hash_prompt` is kept abstract:
  cache operations take the hash function as an explicit parameter `h`.
-/

/-! ## Rate limiter (`src/utils/rate_limiter.rs`) -/

/-- Constant `INITIAL_RETRY_DELAY_MS = 1000` from `rate_limiter.rs`. -/
def INITIAL_RETRY_DELAY_MS : Nat := 1000

/-- Constant `MAX_RETRY_DELAY_MS = 60000` from `rate_limiter.rs`. -/
def MAX_RETRY_DELAY_MS : Nat := 60000

/-- Constant `DEFAULT_RPM_LIMIT = 30` from `rate_limiter.rs`. -/
def DEFAULT_RPM_LIMIT : Nat := 30

/-- The `Provider` enum of `rate_limiter.rs`. -/
inductive Provider where
  | Anthropic
  | OpenAI
  | Custom
deriving Repr, DecidableEq

/-- `impl From<&str> for Provider`: `"anthropic" | "anthropic_enhanced"`
map to `Anthropic`, `"openai"` to `OpenAI`, everything else to `Custom`. -/
def Provider.fromStr (provider : String) : Provider :=
  match provider with
  | "anthropic" => Provider.Anthropic
  | "anthropic_enhanced" => Provider.Anthropic
  | "openai" => Provider.OpenAI
  | _ => Provider.Custom

/-- The `ProviderRateLimit` struct: request timestamps, RPM limit,
consecutive failure counter and last computed backoff delay. -/
structure ProviderRateLimit where
  requests : List Int
  rpm_limit : Nat
  consecutive_failures : Nat
  last_backoff_delay_ms : Nat
deriving Repr, DecidableEq

/-- `ProviderRateLimit::new(rpm_limit)`. -/
def ProviderRateLimit.new (rpm_limit : Nat) : ProviderRateLimit :=
  { requests := []
    rpm_limit := rpm_limit
    consecutive_failures := 0
    last_backoff_delay_ms := INITIAL_RETRY_DELAY_MS }

/-- `cleanup_old_requests`: retain timestamps strictly newer than
`now - 60` seconds. -/
def ProviderRateLimit.cleanup_old_requests (p : ProviderRateLimit) (now : Int) :
    ProviderRateLimit :=
  { p with requests := p.requests.filter (fun t => now - 60 < t) }

/-- `get_current_rpm`: purge the window, then count it.  The Rust method
mutates the receiver, so the model returns the purged state as well. -/
def ProviderRateLimit.get_current_rpm (p : ProviderRateLimit) (now : Int) :
    ProviderRateLimit × Nat :=
  let p1 := p.cleanup_old_requests now
  (p1, p1.requests.length)

/-- `can_make_request`: purge the window, then compare its length
strictly against the RPM limit.  Mutates the receiver (the purge). -/
def ProviderRateLimit.can_make_request (p : ProviderRateLimit) (now : Int) :
    ProviderRateLimit × Bool :=
  let p1 := p.cleanup_old_requests now
  (p1, decide (p1.requests.length < p1.rpm_limit))

/-- `record_request`: push the current time onto the window. -/
def ProviderRateLimit.record_request (p : ProviderRateLimit) (now : Int) :
    ProviderRateLimit :=
  { p with requests := p.requests ++ [now] }

/-- `record_success`: reset the failure counter and the backoff delay. -/
def ProviderRateLimit.record_success (p : ProviderRateLimit) : ProviderRateLimit :=
  { p with consecutive_failures := 0
           last_backoff_delay_ms := INITIAL_RETRY_DELAY_MS }

/-- `record_failure`: increment the failure counter; from the second
consecutive failure on, double the stored delay and clamp it at
`MAX_RETRY_DELAY_MS`; return the stored delay. -/
def ProviderRateLimit.record_failure (p : ProviderRateLimit) :
    ProviderRateLimit × Nat :=
  let n := p.consecutive_failures + 1
  let d := if 1 < n then min (p.last_backoff_delay_ms * 2) MAX_RETRY_DELAY_MS
           else p.last_backoff_delay_ms
  ({ p with consecutive_failures := n, last_backoff_delay_ms := d }, d)

/-- `record_rate_limit`: increment the failure counter and recompute the
delay from scratch as `INITIAL_RETRY_DELAY_MS * BACKOFF_FACTOR^n`
clamped at `MAX_RETRY_DELAY_MS`; the request window is untouched. -/
def ProviderRateLimit.record_rate_limit (p : ProviderRateLimit) :
    ProviderRateLimit :=
  let n := p.consecutive_failures + 1
  { p with consecutive_failures := n
           last_backoff_delay_ms := min (INITIAL_RETRY_DELAY_MS * 2 ^ n) MAX_RETRY_DELAY_MS }

/-- The `RateLimiter` provider map.  `RateLimiter::new` populates the map
with all three `Provider` variants and no operation ever removes one, so
the `HashMap<Provider, ProviderRateLimit>` is modelled as one field per
variant (the `or_insert_with` default branches are therefore dead). -/
structure RateLimiter where
  anthropic : ProviderRateLimit
  openai : ProviderRateLimit
  custom : ProviderRateLimit
deriving Repr, DecidableEq

/-- Lookup of a provider's entry in the provider map. -/
def RateLimiter.get (rl : RateLimiter) : Provider → ProviderRateLimit
  | Provider.Anthropic => rl.anthropic
  | Provider.OpenAI => rl.openai
  | Provider.Custom => rl.custom

/-- Point update of a provider's entry in the provider map. -/
def RateLimiter.set (rl : RateLimiter) : Provider → ProviderRateLimit → RateLimiter
  | Provider.Anthropic, q => { rl with anthropic := q }
  | Provider.OpenAI, q => { rl with openai := q }
  | Provider.Custom, q => { rl with custom := q }

/-- `RateLimiter::new`: 30 RPM for Anthropic, 60 for OpenAI, the default
30 for Custom. -/
def RateLimiter.new : RateLimiter :=
  { anthropic := ProviderRateLimit.new 30
    openai := ProviderRateLimit.new 60
    custom := ProviderRateLimit.new DEFAULT_RPM_LIMIT }

/-- `RateLimiter::check_rate_limit`: `get_current_rpm` (purging), the
advisory 80 percent warning (pure logging, no state effect), then
`can_make_request` (purging again). -/
def RateLimiter.check_rate_limit (rl : RateLimiter) (now : Int) (p : Provider) :
    RateLimiter × Bool :=
  let q := rl.get p
  let r1 := q.get_current_rpm now
  let r2 := r1.1.can_make_request now
  (rl.set p r2.1, r2.2)

/-- Public `record_request`: push `now` onto the named provider's window. -/
def RateLimiter.record_request (rl : RateLimiter) (now : Int) (p : Provider) :
    RateLimiter :=
  rl.set p ((rl.get p).record_request now)

/-- `RateLimiter::record_success`. -/
def RateLimiter.record_success (rl : RateLimiter) (p : Provider) : RateLimiter :=
  rl.set p (rl.get p).record_success

/-- `RateLimiter::record_failure`, returning the backoff delay. -/
def RateLimiter.record_failure (rl : RateLimiter) (p : Provider) :
    RateLimiter × Nat :=
  let r := (rl.get p).record_failure
  (rl.set p r.1, r.2)

/-- `RateLimiter::record_rate_limit`. -/
def RateLimiter.record_rate_limit (rl : RateLimiter) (p : Provider) : RateLimiter :=
  rl.set p (rl.get p).record_rate_limit

/-- Public `set_rate_limit(provider, rpm)`. -/
def RateLimiter.set_rate_limit (rl : RateLimiter) (p : Provider) (rpm : Nat) :
    RateLimiter :=
  rl.set p { rl.get p with rpm_limit := rpm }

/-- Module-level `rate_limiter::can_make_request(provider_str)`. -/
def rate_limiter.can_make_request (rl : RateLimiter) (now : Int) (s : String) :
    RateLimiter × Bool :=
  rl.check_rate_limit now (Provider.fromStr s)

/-- Module-level `rate_limiter::record_request(provider_str)`. -/
def rate_limiter.record_request (rl : RateLimiter) (now : Int) (s : String) :
    RateLimiter :=
  rl.record_request now (Provider.fromStr s)

/-- Module-level `rate_limiter::record_success(provider_str)`. -/
def rate_limiter.record_success (rl : RateLimiter) (s : String) : RateLimiter :=
  rl.record_success (Provider.fromStr s)

/-- Module-level `rate_limiter::record_failure(provider_str)`. -/
def rate_limiter.record_failure (rl : RateLimiter) (s : String) :
    RateLimiter × Nat :=
  rl.record_failure (Provider.fromStr s)

/-- Module-level `rate_limiter::record_rate_limit(provider_str)`. -/
def rate_limiter.record_rate_limit (rl : RateLimiter) (s : String) : RateLimiter :=
  rl.record_rate_limit (Provider.fromStr s)

/-- Module-level `rate_limiter::set_rate_limit(provider_str, rpm)`. -/
def rate_limiter.set_rate_limit (rl : RateLimiter) (s : String) (rpm : Nat) :
    RateLimiter :=
  rl.set_rate_limit (Provider.fromStr s) rpm

/-- Recording a list of requests in order via `record_request`. -/
def recordAll (p : ProviderRateLimit) (ts : List Int) : ProviderRateLimit :=
  ts.foldl (fun q t => q.record_request t) p

/-- State after `n` consecutive `record_failure` calls. -/
def failIter (p : ProviderRateLimit) : Nat → ProviderRateLimit
  | 0 => p
  | n + 1 => (failIter p n).record_failure.1

/-- Delay returned by the `(n+1)`-th consecutive `record_failure` call. -/
def failDelay (p : ProviderRateLimit) (n : Nat) : Nat :=
  (failIter p n).record_failure.2

/-! ## Rate limiter lemmas -/

lemma recordAll_requests (ts : List Int) (p : ProviderRateLimit) :
    (recordAll p ts).requests = p.requests ++ ts := by
  induction ts generalizing p with
  | nil => simp [recordAll]
  | cons t ts ih =>
      simp [recordAll, List.foldl_cons] at *
      rw [ih]
      simp [ProviderRateLimit.record_request]

lemma recordAll_rpm (ts : List Int) (p : ProviderRateLimit) :
    (recordAll p ts).rpm_limit = p.rpm_limit := by
  induction ts generalizing p with
  | nil => rfl
  | cons t ts ih =>
      simp [recordAll, List.foldl_cons] at *
      rw [ih]
      rfl

lemma failIter_cf (p : ProviderRateLimit) (n : Nat) :
    (failIter p n).consecutive_failures = p.consecutive_failures + n := by
  induction n with
  | zero => rfl
  | succ n ih => simp [failIter, ProviderRateLimit.record_failure, ih]; omega

lemma failIter_last (p : ProviderRateLimit) (n : Nat) :
    (failIter p (n + 1)).last_backoff_delay_ms = failDelay p n := rfl

/-- Claim C1, counterexample to the claim as stated: with a configured
limit of `L = 0` and all zero recorded timestamps outside the window,
`can_make_request` still returns `false` (`0 < 0` fails), while the
claim requires it to return `true` again. -/
theorem c1_zero_limit_cex :
    ((recordAll (ProviderRateLimit.new 0) []).can_make_request 100).2 = false := by
  rfl

/-- Claim C1 (amended: for configured limits `L ≥ 1`): after exactly `L`
requests recorded via `record_request` with timestamps inside the
trailing 60-second window, `can_make_request` returns `false`; once all
`L` timestamps fall outside the window, it returns `true` again (the
check purges timestamps at least 60 seconds old, then compares the
remaining count strictly against `L`). -/
theorem c1_window_admission (L : Nat) (ts : List Int) (now later : Int)
    (hL : 1 ≤ L) (hlen : ts.length = L)
    (hin : ∀ t ∈ ts, now - 60 < t) (hout : ∀ t ∈ ts, t ≤ later - 60) :
    ((recordAll (ProviderRateLimit.new L) ts).can_make_request now).2 = false ∧
    ((recordAll (ProviderRateLimit.new L) ts).can_make_request later).2 = true := by
  have hreq : (recordAll (ProviderRateLimit.new L) ts).requests = ts := by
    rw [recordAll_requests]; rfl
  have hrpm : (recordAll (ProviderRateLimit.new L) ts).rpm_limit = L :=
    recordAll_rpm ts (ProviderRateLimit.new L)
  have h1 : ts.filter (fun t => decide (now - 60 < t)) = ts :=
    List.filter_eq_self.mpr (fun t ht => by simpa using hin t ht)
  have h2 : ts.filter (fun t => decide (later - 60 < t)) = [] := by
    apply List.filter_eq_nil_iff.mpr
    intro t ht
    have := hout t ht
    simp only [decide_eq_true_eq]
    omega
  constructor
  · simp [ProviderRateLimit.can_make_request, ProviderRateLimit.cleanup_old_requests,
      hreq, hrpm, h1, hlen]
  · simp [ProviderRateLimit.can_make_request, ProviderRateLimit.cleanup_old_requests,
      hreq, hrpm, h2]
    omega

/-- Witness for C1 at `L = 1`, one request at time `0`, checked at times
`10` (denied) and `100` (admitted again). -/
theorem c1_window_admission_witness :
    ((recordAll (ProviderRateLimit.new 1) [0]).can_make_request 10).2 = false ∧
    ((recordAll (ProviderRateLimit.new 1) [0]).can_make_request 100).2 = true :=
  c1_window_admission 1 [0] 10 100 (by omega) rfl
    (by intro t ht; simp at ht; omega)
    (by intro t ht; simp at ht; omega)

/-- Claim C2: from a reset backoff state (no consecutive failures, delay
at the initial 1000 ms — the state after construction or after any
`record_success`), consecutive `record_failure` calls return 1000 first
and then double the previous value clamped at 60000 ms, giving a
non-decreasing sequence bounded by 60000 with prefix 1000, 2000, 4000,
8000; and after any `record_success` the next `record_failure` returns
the initial 1000 ms again. -/
theorem c2_backoff_sequence (p : ProviderRateLimit)
    (hcf : p.consecutive_failures = 0) (hd : p.last_backoff_delay_ms = 1000) :
    failDelay p 0 = 1000 ∧
    (∀ n, failDelay p (n + 1) = min (failDelay p n * 2) 60000) ∧
    (∀ n, failDelay p n ≤ failDelay p (n + 1)) ∧
    (∀ n, failDelay p n ≤ 60000) ∧
    (failDelay p 1 = 2000 ∧ failDelay p 2 = 4000 ∧ failDelay p 3 = 8000) ∧
    (∀ q : ProviderRateLimit, q.record_success.record_failure.2 = 1000) := by
  have h0 : failDelay p 0 = 1000 := by
    simp [failDelay, failIter, ProviderRateLimit.record_failure, hcf, hd]
  have hrec : ∀ n, failDelay p (n + 1) = min (failDelay p n * 2) 60000 := by
    intro n
    have hcf' := failIter_cf p (n + 1)
    rw [hcf, Nat.zero_add] at hcf'
    show (failIter p (n + 1)).record_failure.2 = _
    simp only [ProviderRateLimit.record_failure, hcf']
    rw [if_pos (by omega), failIter_last]
    rfl
  have hbound : ∀ n, failDelay p n ≤ 60000 := by
    intro n
    cases n with
    | zero => rw [h0]; omega
    | succ n => rw [hrec n]; exact Nat.min_le_right _ _
  have hmono : ∀ n, failDelay p n ≤ failDelay p (n + 1) := by
    intro n
    rw [hrec n]
    exact le_min (by omega) (hbound n)
  refine ⟨h0, hrec, hmono, hbound, ⟨?_, ?_, ?_⟩, fun q => rfl⟩
  · rw [hrec 0, h0]; decide
  · rw [hrec 1, hrec 0, h0]; decide
  · rw [hrec 2, hrec 1, hrec 0, h0]; decide

/-- Witness for C2 at the freshly constructed provider state. -/
theorem c2_backoff_sequence_witness :
    failDelay (ProviderRateLimit.new 30) 0 = 1000 ∧
    failDelay (ProviderRateLimit.new 30) 3 = 8000 :=
  ⟨(c2_backoff_sequence (ProviderRateLimit.new 30) rfl rfl).1,
   (c2_backoff_sequence (ProviderRateLimit.new 30) rfl rfl).2.2.2.2.1.2.2⟩

/-- Claim C7: `record_rate_limit` increments the consecutive failure
count from `n` to `n + 1`, recomputes the stored delay from the initial
delay as `min (1000 * 2 ^ (n + 1)) 60000`, and leaves both the recorded
request window and the RPM limit unchanged. -/
theorem c7_record_rate_limit (p : ProviderRateLimit) :
    p.record_rate_limit.consecutive_failures = p.consecutive_failures + 1 ∧
    p.record_rate_limit.last_backoff_delay_ms
      = min (1000 * 2 ^ (p.consecutive_failures + 1)) 60000 ∧
    p.record_rate_limit.requests = p.requests ∧
    p.record_rate_limit.rpm_limit = p.rpm_limit :=
  ⟨rfl, rfl, rfl, rfl⟩

/-- Claim C9, counterexample to the claim as stated: the distinct caller
strings `"groq"` and `"mistral"` both normalize to `Provider::Custom`,
so a failure recorded for `"groq"` changes the backoff delay observed
for `"mistral"` (2000 ms instead of the fresh 1000 ms). -/
theorem c9_string_bleed_cex :
    (rate_limiter.record_failure
      (rate_limiter.record_failure RateLimiter.new "groq").1 "mistral").2 = 2000 ∧
    (rate_limiter.record_failure RateLimiter.new "mistral").2 = 1000 := by
  constructor <;> rfl

lemma RateLimiter.get_set_ne (rl : RateLimiter) (p1 p2 : Provider)
    (q : ProviderRateLimit) (hne : p1 ≠ p2) : (rl.set p1 q).get p2 = rl.get p2 := by
  cases p1 <;> cases p2 <;> simp_all [RateLimiter.set, RateLimiter.get]

/-- Claim C9 (amended: distinct provider identities after normalization
through `From<&str>` to the `Provider` enum): every operation keyed by
provider `p1` leaves the state stored for any different provider `p2`
unchanged; caller strings that normalize to the same variant (for
example two unknown providers, both `Custom`) do share one state. -/
theorem c9_provider_frame (rl : RateLimiter) (p1 p2 : Provider) (hne : p1 ≠ p2) :
    (∀ now, (rl.check_rate_limit now p1).1.get p2 = rl.get p2) ∧
    (∀ now, (rl.record_request now p1).get p2 = rl.get p2) ∧
    (rl.record_success p1).get p2 = rl.get p2 ∧
    (rl.record_failure p1).1.get p2 = rl.get p2 ∧
    (rl.record_rate_limit p1).get p2 = rl.get p2 ∧
    (∀ rpm, (rl.set_rate_limit p1 rpm).get p2 = rl.get p2) :=
  ⟨fun _ => RateLimiter.get_set_ne rl p1 p2 _ hne,
   fun _ => RateLimiter.get_set_ne rl p1 p2 _ hne,
   RateLimiter.get_set_ne rl p1 p2 _ hne,
   RateLimiter.get_set_ne rl p1 p2 _ hne,
   RateLimiter.get_set_ne rl p1 p2 _ hne,
   fun _ => RateLimiter.get_set_ne rl p1 p2 _ hne⟩

/-- Witness for C9 with the fresh limiter, `p1 = Anthropic`,
`p2 = OpenAI`. -/
theorem c9_provider_frame_witness :
    (∀ now, (RateLimiter.new.check_rate_limit now Provider.Anthropic).1.get
        Provider.OpenAI = RateLimiter.new.get Provider.OpenAI) ∧
    (∀ now, (RateLimiter.new.record_request now Provider.Anthropic).get
        Provider.OpenAI = RateLimiter.new.get Provider.OpenAI) ∧
    (RateLimiter.new.record_success Provider.Anthropic).get Provider.OpenAI
      = RateLimiter.new.get Provider.OpenAI ∧
    (RateLimiter.new.record_failure Provider.Anthropic).1.get Provider.OpenAI
      = RateLimiter.new.get Provider.OpenAI ∧
    (RateLimiter.new.record_rate_limit Provider.Anthropic).get Provider.OpenAI
      = RateLimiter.new.get Provider.OpenAI ∧
    (∀ rpm, (RateLimiter.new.set_rate_limit Provider.Anthropic rpm).get
        Provider.OpenAI = RateLimiter.new.get Provider.OpenAI) :=
  c9_provider_frame RateLimiter.new Provider.Anthropic Provider.OpenAI
    (by decide)

/-! ## Response cache (`src/ai/cache.rs`) -/

/-- Constant `CACHE_TTL = Duration::from_secs(60 * 60)`, in seconds. -/
def CACHE_TTL : Nat := 3600

/-- Constant `MAX_CACHE_SIZE = 1000`. -/
def MAX_CACHE_SIZE : Nat := 1000

/-- The `CachedResponse` struct: the response text and its creation
time.  `ghost_prompt_len` is a ghost field not present in the Rust
struct: it records `prompt.len()` at insertion time, is read by no
operation below, and exists only so that the memory-accounting
invariants of the spec can be stated. -/
structure CachedResponse where
  response : String
  cached_at : Nat
  ghost_prompt_len : Nat
deriving Repr, DecidableEq

/-- `CachedResponse::is_valid`: elapsed time since creation is strictly
below the TTL, re-evaluated against the clock on every call. -/
def CachedResponse.is_valid (e : CachedResponse) (now : Nat) : Bool :=
  decide (now - e.cached_at < CACHE_TTL)

/-- Lookup in the `HashMap<u64, CachedResponse>` association list. -/
def lookupKey : List (Nat × CachedResponse) → Nat → Option CachedResponse
  | [], _ => none
  | (k', v) :: rest, k => if k' = k then some v else lookupKey rest k

/-- `HashMap::remove(key)`: drop the binding of `key` (a `HashMap` holds
at most one binding per key, so dropping every list binding of `key` is
its semantics). -/
def eraseKey : List (Nat × CachedResponse) → Nat → List (Nat × CachedResponse)
  | [], _ => []
  | kv :: rest, k => if kv.1 = k then eraseKey rest k else kv :: eraseKey rest k

/-- `VecDeque` removal at `iter().position(|&k| k == key)`: remove the
first occurrence of `k`, if any. -/
def removeFirst : List Nat → Nat → List Nat
  | [], _ => []
  | x :: xs, k => if x = k then xs else x :: removeFirst xs k

/-- The `ResponseCache` struct: hash-keyed map of cached responses,
insertion-order eviction queue (front at the head), item-count ceiling,
running byte estimate, and byte ceiling. -/
structure ResponseCache where
  cache : List (Nat × CachedResponse)
  keys_queue : List Nat
  max_size : Nat
  estimated_memory_usage : Nat
  max_memory_usage : Nat
deriving Repr, DecidableEq

/-- An empty cache with the given ceilings.  `ResponseCache::new()` uses
`max_size = MAX_CACHE_SIZE` and a byte ceiling of
`config.max_cache_size_mb * 1024 * 1024`; `derive(Default)` yields both
ceilings zero. -/
def mkCache (max_size max_memory : Nat) : ResponseCache :=
  { cache := []
    keys_queue := []
    max_size := max_size
    estimated_memory_usage := 0
    max_memory_usage := max_memory }

/-- `ResponseCache::new()`: ceilings `MAX_CACHE_SIZE` items and
`max_cache_size_mb * 1024 * 1024` bytes (the configured megabyte count
is a parameter here). -/
def ResponseCache.new (max_cache_size_mb : Nat) : ResponseCache :=
  mkCache MAX_CACHE_SIZE (max_cache_size_mb * 1024 * 1024)

/-- `ResponseCache::get`: hash the prompt, look the key up, and return
the response only if the entry is currently valid.  Takes `&self`: no
state is modified. -/
def ResponseCache.get (h : String → Option Nat → Nat) (c : ResponseCache)
    (now : Nat) (prompt : String) (max_tokens : Option Nat) : Option String :=
  let key := h prompt max_tokens
  match lookupKey c.cache key with
  | some cached => if cached.is_valid now then some cached.response else none
  | none => none

/-- `ResponseCache::remove_entry`: drop the map binding, subtract
`removed.response.len() + 64` from the byte estimate (saturating at
zero; note the prompt length is not subtracted), and drop the key's
first occurrence from the eviction queue. -/
def ResponseCache.remove_entry (c : ResponseCache) (key : Nat) : ResponseCache :=
  let c1 :=
    match lookupKey c.cache key with
    | some removed =>
        { c with
            cache := eraseKey c.cache key
            estimated_memory_usage :=
              c.estimated_memory_usage - (removed.response.length + 64) }
    | none => c
  { c1 with keys_queue := removeFirst c1.keys_queue key }

lemma remove_entry_queue (c : ResponseCache) (key : Nat) :
    (c.remove_entry key).keys_queue = removeFirst c.keys_queue key := by
  unfold ResponseCache.remove_entry
  cases lookupKey c.cache key <;> rfl

lemma removeFirst_length_le (l : List Nat) (k : Nat) :
    (removeFirst l k).length ≤ l.length := by
  induction l with
  | nil => simp [removeFirst]
  | cons x xs ih =>
      unfold removeFirst
      by_cases hx : x = k
      · simp [hx]
      · simp [hx]
        omega

/-- `ResponseCache::enforce_memory_limit(needed_space)`: while the queue
is non-empty and the estimate plus the needed space still exceeds the
byte ceiling, pop the oldest key off the queue front and remove its
entry. -/
def ResponseCache.enforce_memory_limit (c : ResponseCache) (needed_space : Nat) :
    ResponseCache :=
  match hq : c.keys_queue with
  | [] => c
  | oldest_key :: rest =>
      if c.estimated_memory_usage + needed_space > c.max_memory_usage then
        ResponseCache.enforce_memory_limit
          (ResponseCache.remove_entry { c with keys_queue := rest } oldest_key)
          needed_space
      else c
termination_by c.keys_queue.length
decreasing_by
  simp only [remove_entry_queue]
  simp only [hq]
  have := removeFirst_length_le rest oldest_key
  simp
  omega

/-- First block of `ResponseCache::insert`: if the key already exists,
remove the old entry first. -/
def insertDedup (c : ResponseCache) (key : Nat) : ResponseCache :=
  if (lookupKey c.cache key).isSome then c.remove_entry key else c

/-- Second block of `ResponseCache::insert`: if adding `entry_size`
bytes would exceed the byte ceiling, enforce the memory limit first. -/
def insertEnforce (c : ResponseCache) (entry_size : Nat) : ResponseCache :=
  if c.estimated_memory_usage + entry_size > c.max_memory_usage then
    c.enforce_memory_limit entry_size
  else c

/-- Third block of `ResponseCache::insert`: if the item count has
reached the ceiling, pop the oldest key off the queue (if any) and
remove its entry. -/
def insertEvict (c : ResponseCache) : ResponseCache :=
  if c.cache.length ≥ c.max_size then
    match c.keys_queue with
    | [] => c
    | oldest_key :: rest =>
        ResponseCache.remove_entry { c with keys_queue := rest } oldest_key
  else c

/-- `ResponseCache::insert`: hash the prompt; dedup; compute the
estimated entry size (`response.len() + prompt.len() + 64`); enforce
the byte ceiling; enforce the item-count ceiling; then add the entry,
append its key to the queue, and add its size to the byte estimate. -/
def ResponseCache.insert (h : String → Option Nat → Nat) (c : ResponseCache)
    (now : Nat) (prompt : String) (max_tokens : Option Nat) (response : String) :
    ResponseCache :=
  let key := h prompt max_tokens
  let entry_size := response.length + prompt.length + 64
  let c3 := insertEvict (insertEnforce (insertDedup c key) entry_size)
  { c3 with
      cache := c3.cache ++ [(key, ⟨response, now, prompt.length⟩)]
      keys_queue := c3.keys_queue ++ [key]
      estimated_memory_usage := c3.estimated_memory_usage + entry_size }

/-- `ResponseCache::size`: number of map entries (valid or expired). -/
def ResponseCache.size (c : ResponseCache) : Nat := c.cache.length

/-- `ResponseCache::memory_usage`: the running byte estimate. -/
def ResponseCache.memory_usage (c : ResponseCache) : Nat :=
  c.estimated_memory_usage

/-- `ResponseCache::clean`: collect the keys of every entry that is no
longer valid, remove each of them, and return the count removed. -/
def ResponseCache.clean (c : ResponseCache) (now : Nat) : ResponseCache × Nat :=
  let expired_keys :=
    (c.cache.filter (fun kv => !(kv.2.is_valid now))).map Prod.fst
  (expired_keys.foldl (fun acc k => acc.remove_entry k) c, expired_keys.length)

/-- One cache mutation, for stating reachability: an `insert`, an
internal `remove_entry`, or a `clean`. -/
inductive CacheOp where
  | ins (now : Nat) (prompt : String) (max_tokens : Option Nat) (response : String)
  | rem (key : Nat)
  | cln (now : Nat)

/-- Apply one mutation. -/
def applyOp (h : String → Option Nat → Nat) (c : ResponseCache) :
    CacheOp → ResponseCache
  | CacheOp.ins now prompt max_tokens response =>
      c.insert h now prompt max_tokens response
  | CacheOp.rem key => c.remove_entry key
  | CacheOp.cln now => (c.clean now).1

/-- Run a sequence of mutations. -/
def runOps (h : String → Option Nat → Nat) (c : ResponseCache)
    (ops : List CacheOp) : ResponseCache :=
  ops.foldl (applyOp h) c

/-- The estimated size an entry was charged at insertion time:
`response.len() + prompt.len() + 64` (the prompt length read from the
ghost field). -/
def entrySize (e : CachedResponse) : Nat :=
  e.response.length + e.ghost_prompt_len + 64

/-- Sum of insertion-time estimated sizes over a map fragment. -/
def liveSumL (l : List (Nat × CachedResponse)) : Nat :=
  (l.map (fun kv => entrySize kv.2)).sum

/-- Sum of the live entries' insertion-time estimated sizes. -/
def liveSum (c : ResponseCache) : Nat :=
  liveSumL c.cache

/-- A concrete fingerprint function for witnesses and counterexamples
(prompt length; injective on the prompts used there). -/
def h0 : String → Option Nat → Nat := fun p _ => p.length

/-! ## Cache lemmas: lookup, erase, queue -/

lemma lookupKey_eq_none (l : List (Nat × CachedResponse)) (k : Nat) :
    lookupKey l k = none ↔ k ∉ l.map Prod.fst := by
  induction l with
  | nil => simp [lookupKey]
  | cons kv rest ih =>
      obtain ⟨k', v⟩ := kv
      by_cases hk : k' = k
      · subst hk
        simp [lookupKey]
      · simp [lookupKey, hk, ih]
        omega

lemma mem_of_lookupKey {l : List (Nat × CachedResponse)} {k : Nat}
    {e : CachedResponse} (hl : lookupKey l k = some e) : (k, e) ∈ l := by
  induction l with
  | nil => simp [lookupKey] at hl
  | cons kv rest ih =>
      obtain ⟨k', v⟩ := kv
      by_cases hk : k' = k
      · subst hk
        simp [lookupKey] at hl
        simp [hl]
      · simp [lookupKey, hk] at hl
        exact List.mem_cons_of_mem _ (ih hl)

lemma lookupKey_cons (k' : Nat) (v : CachedResponse)
    (rest : List (Nat × CachedResponse)) (k : Nat) :
    lookupKey ((k', v) :: rest) k = if k' = k then some v else lookupKey rest k := rfl

lemma eraseKey_cons (kv : Nat × CachedResponse)
    (rest : List (Nat × CachedResponse)) (k : Nat) :
    eraseKey (kv :: rest) k
      = if kv.1 = k then eraseKey rest k else kv :: eraseKey rest k := rfl

lemma removeFirst_cons (x : Nat) (xs : List Nat) (k : Nat) :
    removeFirst (x :: xs) k = if x = k then xs else x :: removeFirst xs k := rfl

lemma lookupKey_of_mem_nodup {l : List (Nat × CachedResponse)} {k : Nat}
    {e : CachedResponse} (hnd : (l.map Prod.fst).Nodup) (hm : (k, e) ∈ l) :
    lookupKey l k = some e := by
  induction l with
  | nil => simp at hm
  | cons kv rest ih =>
      obtain ⟨k', v⟩ := kv
      rw [List.map_cons, List.nodup_cons] at hnd
      rcases List.mem_cons.mp hm with heq | hmem
      · obtain ⟨h1, h2⟩ := Prod.mk.injEq .. ▸ heq
        subst h1; subst h2
        simp [lookupKey_cons]
      · have hk : k' ≠ k := by
          intro hc
          subst hc
          exact hnd.1 (List.mem_map.mpr ⟨(k', e), hmem, rfl⟩)
        rw [lookupKey_cons, if_neg hk]
        exact ih hnd.2 hmem

lemma eraseKey_of_notMem {l : List (Nat × CachedResponse)} {k : Nat}
    (hk : k ∉ l.map Prod.fst) : eraseKey l k = l := by
  induction l with
  | nil => rfl
  | cons kv rest ih =>
      have h1 : ¬ (kv.1 = k) := fun hc => hk (by simp [hc])
      have h2 : k ∉ rest.map Prod.fst := fun hc => hk (by simp [hc])
      rw [eraseKey_cons, if_neg h1, ih h2]

lemma eraseKey_sublist (l : List (Nat × CachedResponse)) (k : Nat) :
    (eraseKey l k).Sublist l := by
  induction l with
  | nil => simp [eraseKey]
  | cons kv rest ih =>
      rw [eraseKey_cons]
      by_cases hk : kv.1 = k
      · rw [if_pos hk]
        exact ih.cons kv
      · rw [if_neg hk]
        exact ih.cons₂ kv

lemma notMem_eraseKey_self (l : List (Nat × CachedResponse)) (k : Nat) :
    k ∉ (eraseKey l k).map Prod.fst := by
  induction l with
  | nil => simp [eraseKey]
  | cons kv rest ih =>
      rw [eraseKey_cons]
      by_cases hk : kv.1 = k
      · rw [if_pos hk]
        exact ih
      · rw [if_neg hk, List.map_cons]
        intro hc
        rcases List.mem_cons.mp hc with hc | hc
        · exact hk hc.symm
        · exact ih hc

lemma notMem_eraseKey_of_notMem {l : List (Nat × CachedResponse)} {k k' : Nat}
    (hk : k ∉ l.map Prod.fst) : k ∉ (eraseKey l k').map Prod.fst :=
  fun hc => hk (((eraseKey_sublist l k').map Prod.fst).mem hc)

lemma lookupKey_eraseKey (l : List (Nat × CachedResponse)) (k0 k : Nat) :
    lookupKey (eraseKey l k0) k = if k = k0 then none else lookupKey l k := by
  induction l with
  | nil => simp [eraseKey, lookupKey]
  | cons kv rest ih =>
      obtain ⟨k', v⟩ := kv
      by_cases h1 : k' = k0
      · subst h1
        rw [eraseKey_cons, if_pos rfl, ih]
        by_cases h2 : k = k'
        · rw [if_pos h2, if_pos h2]
        · rw [if_neg h2, if_neg h2, lookupKey_cons,
            if_neg (fun hc => h2 hc.symm)]
      · rw [eraseKey_cons, if_neg h1, lookupKey_cons]
        by_cases h2 : k' = k
        · subst h2
          rw [if_pos rfl, if_neg (fun hc : k' = k0 => h1 hc), lookupKey_cons,
            if_pos rfl]
        · rw [if_neg h2, ih]
          by_cases h3 : k = k0
          · rw [if_pos h3, if_pos h3]
          · rw [if_neg h3, if_neg h3, lookupKey_cons, if_neg h2]

lemma lookupKey_append_self (l : List (Nat × CachedResponse)) (k : Nat)
    (e : CachedResponse) (hk : k ∉ l.map Prod.fst) :
    lookupKey (l ++ [(k, e)]) k = some e := by
  induction l with
  | nil => simp [lookupKey]
  | cons kv rest ih =>
      have h1 : ¬ (kv.1 = k) := fun hc => hk (by simp [hc])
      have h2 : k ∉ rest.map Prod.fst := fun hc => hk (by simp [hc])
      obtain ⟨k', v⟩ := kv
      rw [List.cons_append, lookupKey_cons, if_neg h1]
      exact ih h2

lemma removeFirst_of_notMem {l : List Nat} {k : Nat} (hk : k ∉ l) :
    removeFirst l k = l := by
  induction l with
  | nil => rfl
  | cons x xs ih =>
      have h1 : ¬ (x = k) := fun hc => hk (by simp [hc])
      have h2 : k ∉ xs := fun hc => hk (List.mem_cons_of_mem _ hc)
      rw [removeFirst_cons, if_neg h1, ih h2]

lemma removeFirst_sublist (l : List Nat) (k : Nat) : (removeFirst l k).Sublist l := by
  induction l with
  | nil => simp [removeFirst]
  | cons x xs ih =>
      rw [removeFirst_cons]
      by_cases hx : x = k
      · rw [if_pos hx]
        exact List.sublist_cons_self x xs
      · rw [if_neg hx]
        exact ih.cons₂ x

/-! ## Cache lemmas: remove_entry and enforce_memory_limit -/

lemma remove_entry_cache (c : ResponseCache) (k : Nat) :
    (c.remove_entry k).cache = eraseKey c.cache k := by
  unfold ResponseCache.remove_entry
  cases hl : lookupKey c.cache k with
  | none => exact (eraseKey_of_notMem ((lookupKey_eq_none _ _).mp hl)).symm
  | some e => rfl

lemma remove_entry_max_size (c : ResponseCache) (k : Nat) :
    (c.remove_entry k).max_size = c.max_size := by
  unfold ResponseCache.remove_entry
  cases lookupKey c.cache k <;> rfl

lemma remove_entry_max_memory (c : ResponseCache) (k : Nat) :
    (c.remove_entry k).max_memory_usage = c.max_memory_usage := by
  unfold ResponseCache.remove_entry
  cases lookupKey c.cache k <;> rfl

lemma remove_entry_est_le (c : ResponseCache) (k : Nat) :
    (c.remove_entry k).estimated_memory_usage ≤ c.estimated_memory_usage := by
  unfold ResponseCache.remove_entry
  cases lookupKey c.cache k with
  | none => exact le_refl _
  | some e => exact Nat.sub_le _ _

lemma remove_entry_est_some (c : ResponseCache) (k : Nat) (e : CachedResponse)
    (hl : lookupKey c.cache k = some e) :
    (c.remove_entry k).estimated_memory_usage
      = c.estimated_memory_usage - (e.response.length + 64) := by
  unfold ResponseCache.remove_entry
  rw [hl]

lemma enforce_nil (c : ResponseCache) (needed : Nat) (h : c.keys_queue = []) :
    c.enforce_memory_limit needed = c := by
  rw [ResponseCache.enforce_memory_limit.eq_def]
  split
  · rfl
  · rename_i k rest hq
    rw [h] at hq
    cases hq

lemma enforce_cons (c : ResponseCache) (needed : Nat) (k : Nat) (rest : List Nat)
    (h : c.keys_queue = k :: rest) :
    c.enforce_memory_limit needed =
      if c.estimated_memory_usage + needed > c.max_memory_usage then
        (ResponseCache.remove_entry { c with keys_queue := rest }
          k).enforce_memory_limit needed
      else c := by
  rw [ResponseCache.enforce_memory_limit.eq_def]
  split
  · rename_i hq
    rw [h] at hq
    cases hq
  · rename_i k' rest' hq
    rw [h] at hq
    injection hq with h1 h2
    subst h1
    subst h2
    rfl

lemma enforce_pres (P : ResponseCache → Prop)
    (hrem : ∀ c k, P c → P (c.remove_entry k))
    (hque : ∀ (c : ResponseCache) q, P c → P { c with keys_queue := q }) :
    ∀ (n : Nat) (c : ResponseCache) (needed : Nat), c.keys_queue.length ≤ n →
      P c → P (c.enforce_memory_limit needed) := by
  intro n
  induction n with
  | zero =>
      intro c needed hlen hP
      rw [enforce_nil c needed (List.length_eq_zero.mp (Nat.le_zero.mp hlen))]
      exact hP
  | succ n ih =>
      intro c needed hlen hP
      cases hq : c.keys_queue with
      | nil =>
          rw [enforce_nil c needed hq]
          exact hP
      | cons k rest =>
          rw [enforce_cons c needed k rest hq]
          by_cases hcond : c.estimated_memory_usage + needed > c.max_memory_usage
          · rw [if_pos hcond]
            apply ih
            · rw [remove_entry_queue]
              show (removeFirst rest k).length ≤ n
              have h1 := removeFirst_length_le rest k
              have h2 : rest.length + 1 ≤ n + 1 := by
                rw [hq] at hlen
                simpa using hlen
              omega
            · exact hrem _ _ (hque _ _ hP)
          · rw [if_neg hcond]
            exact hP

lemma enforce_pres' (P : ResponseCache → Prop)
    (hrem : ∀ c k, P c → P (c.remove_entry k))
    (hque : ∀ (c : ResponseCache) q, P c → P { c with keys_queue := q })
    (c : ResponseCache) (needed : Nat) (hP : P c) :
    P (c.enforce_memory_limit needed) :=
  enforce_pres P hrem hque c.keys_queue.length c needed (le_refl _) hP

lemma enforce_max_memory (c : ResponseCache) (needed : Nat) :
    (c.enforce_memory_limit needed).max_memory_usage = c.max_memory_usage :=
  enforce_pres' (fun x => x.max_memory_usage = c.max_memory_usage)
    (fun c' k hP => (remove_entry_max_memory c' k).trans hP)
    (fun _ _ hP => hP) c needed rfl

lemma enforce_max_size (c : ResponseCache) (needed : Nat) :
    (c.enforce_memory_limit needed).max_size = c.max_size :=
  enforce_pres' (fun x => x.max_size = c.max_size)
    (fun c' k hP => (remove_entry_max_size c' k).trans hP)
    (fun _ _ hP => hP) c needed rfl

lemma enforce_est_le (c : ResponseCache) (needed : Nat) :
    (c.enforce_memory_limit needed).estimated_memory_usage
      ≤ c.estimated_memory_usage :=
  enforce_pres' (fun x => x.estimated_memory_usage ≤ c.estimated_memory_usage)
    (fun c' k hP => le_trans (remove_entry_est_le c' k) hP)
    (fun _ _ hP => hP) c needed (le_refl _)

lemma enforce_cache_notMem (c : ResponseCache) (needed kk : Nat)
    (hk : kk ∉ c.cache.map Prod.fst) :
    kk ∉ (c.enforce_memory_limit needed).cache.map Prod.fst :=
  enforce_pres' (fun x => kk ∉ x.cache.map Prod.fst)
    (fun c' k hP => by
      show kk ∉ (c'.remove_entry k).cache.map Prod.fst
      rw [remove_entry_cache]
      exact notMem_eraseKey_of_notMem hP)
    (fun _ _ hP => hP) c needed hk

lemma enforce_fit : ∀ (n : Nat) (c : ResponseCache) (needed : Nat),
    c.keys_queue.length ≤ n →
    ((c.enforce_memory_limit needed).estimated_memory_usage + needed
        ≤ (c.enforce_memory_limit needed).max_memory_usage ∨
      (c.enforce_memory_limit needed).keys_queue = []) := by
  intro n
  induction n with
  | zero =>
      intro c needed hlen
      have hq := List.length_eq_zero.mp (Nat.le_zero.mp hlen)
      rw [enforce_nil c needed hq]
      exact Or.inr hq
  | succ n ih =>
      intro c needed hlen
      cases hq : c.keys_queue with
      | nil =>
          rw [enforce_nil c needed hq]
          exact Or.inr hq
      | cons k rest =>
          rw [enforce_cons c needed k rest hq]
          by_cases hcond : c.estimated_memory_usage + needed > c.max_memory_usage
          · rw [if_pos hcond]
            apply ih
            rw [remove_entry_queue]
            show (removeFirst rest k).length ≤ n
            have h1 := removeFirst_length_le rest k
            have h2 : rest.length + 1 ≤ n + 1 := by
              rw [hq] at hlen
              simpa using hlen
            omega
          · rw [if_neg hcond]
            exact Or.inl (by omega)

lemma enforce_fit' (c : ResponseCache) (needed : Nat) :
    (c.enforce_memory_limit needed).estimated_memory_usage + needed
        ≤ (c.enforce_memory_limit needed).max_memory_usage ∨
      (c.enforce_memory_limit needed).keys_queue = [] :=
  enforce_fit c.keys_queue.length c needed (le_refl _)

/-! ## Cache lemmas: the insert pipeline -/

lemma insertDedup_max_memory (c : ResponseCache) (key : Nat) :
    (insertDedup c key).max_memory_usage = c.max_memory_usage := by
  unfold insertDedup
  split
  · exact remove_entry_max_memory c key
  · rfl

lemma insertDedup_max_size (c : ResponseCache) (key : Nat) :
    (insertDedup c key).max_size = c.max_size := by
  unfold insertDedup
  split
  · exact remove_entry_max_size c key
  · rfl

lemma insertDedup_notMem_self (c : ResponseCache) (key : Nat) :
    key ∉ (insertDedup c key).cache.map Prod.fst := by
  unfold insertDedup
  split
  · rw [remove_entry_cache]
    exact notMem_eraseKey_self _ _
  · rename_i hcond
    have hn : lookupKey c.cache key = none := by
      cases hl : lookupKey c.cache key with
      | none => rfl
      | some e => rw [hl] at hcond; simp at hcond
    exact (lookupKey_eq_none _ _).mp hn

lemma insertEnforce_max_memory (c : ResponseCache) (E : Nat) :
    (insertEnforce c E).max_memory_usage = c.max_memory_usage := by
  unfold insertEnforce
  split
  · exact enforce_max_memory c E
  · rfl

lemma insertEnforce_max_size (c : ResponseCache) (E : Nat) :
    (insertEnforce c E).max_size = c.max_size := by
  unfold insertEnforce
  split
  · exact enforce_max_size c E
  · rfl

lemma insertEnforce_notMem (c : ResponseCache) (E key : Nat)
    (hk : key ∉ c.cache.map Prod.fst) :
    key ∉ (insertEnforce c E).cache.map Prod.fst := by
  unfold insertEnforce
  split
  · exact enforce_cache_notMem c E key hk
  · exact hk

lemma insertEnforce_fit (c : ResponseCache) (E : Nat) :
    (insertEnforce c E).estimated_memory_usage + E
        ≤ (insertEnforce c E).max_memory_usage ∨
      (insertEnforce c E).keys_queue = [] := by
  unfold insertEnforce
  split
  · exact enforce_fit' c E
  · rename_i hcond
    exact Or.inl (by omega)

lemma insertEvict_max_memory (c : ResponseCache) :
    (insertEvict c).max_memory_usage = c.max_memory_usage := by
  unfold insertEvict
  split
  · split
    · rfl
    · exact remove_entry_max_memory _ _
  · rfl

lemma insertEvict_max_size (c : ResponseCache) :
    (insertEvict c).max_size = c.max_size := by
  unfold insertEvict
  split
  · split
    · rfl
    · exact remove_entry_max_size _ _
  · rfl

lemma insertEvict_est_le (c : ResponseCache) :
    (insertEvict c).estimated_memory_usage ≤ c.estimated_memory_usage := by
  unfold insertEvict
  split
  · split
    · exact le_refl _
    · exact remove_entry_est_le _ _
  · exact le_refl _

lemma insertEvict_notMem (c : ResponseCache) (key : Nat)
    (hk : key ∉ c.cache.map Prod.fst) :
    key ∉ (insertEvict c).cache.map Prod.fst := by
  unfold insertEvict
  split
  · split
    · exact hk
    · rw [remove_entry_cache]
      exact notMem_eraseKey_of_notMem hk
  · exact hk

lemma insertEvict_queue_nil (c : ResponseCache) (h : c.keys_queue = []) :
    insertEvict c = c := by
  unfold insertEvict
  split
  · split
    · rfl
    · rename_i hq
      rw [h] at hq
      cases hq
  · rfl

/-- Claim C4, counterexample to the claim as stated: with a configured
byte ceiling of zero (`max_cache_size_mb = 0`), a single inserted entry
whose estimated size (66 bytes) exceeds the ceiling is still inserted,
and `memory_usage()` then exceeds `max_memory_usage()`. -/
theorem c4_byte_ceiling_cex :
    ((ResponseCache.new 0).insert h0 0 "k" none "v").memory_usage = 66 ∧
    ((ResponseCache.new 0).insert h0 0 "k" none "v").max_memory_usage = 0 := by
  have h1 : insertDedup (ResponseCache.new 0) (h0 "k" none)
      = ResponseCache.new 0 := rfl
  have h2 : insertEnforce (ResponseCache.new 0) 66 = ResponseCache.new 0 := by
    unfold insertEnforce
    rw [if_pos (by decide)]
    exact enforce_nil _ _ rfl
  have h3 : insertEvict (ResponseCache.new 0) = ResponseCache.new 0 :=
    insertEvict_queue_nil _ rfl
  show (ResponseCache.insert h0 (ResponseCache.new 0) 0 "k" none "v").memory_usage
        = 66 ∧ _
  unfold ResponseCache.insert
  rw [show ((h0 "k" none)) = 1 from rfl]
  constructor
  · show (insertEvict (insertEnforce (insertDedup (ResponseCache.new 0) 1)
        66)).estimated_memory_usage + 66 = 66
    rw [show insertDedup (ResponseCache.new 0) 1
          = ResponseCache.new 0 from rfl, h2, h3]
    decide
  · show (insertEvict (insertEnforce (insertDedup (ResponseCache.new 0) 1)
        66)).max_memory_usage = 0
    rw [show insertDedup (ResponseCache.new 0) 1
          = ResponseCache.new 0 from rfl, h2, h3]
    decide

/-- Claim C4 (amended): on `insert` the oldest entries are evicted in
FIFO queue order until the new entry fits or the queue is exhausted;
after the insert either `memory_usage() ≤ max_memory_usage()`, or the
eviction queue was exhausted and the new entry is the only queued one
(in particular a single entry whose own estimated size exceeds the byte
ceiling is still inserted, and the estimate then exceeds the ceiling). -/
theorem c4_byte_ceiling (h : String → Option Nat → Nat) (c : ResponseCache)
    (now : Nat) (prompt : String) (max_tokens : Option Nat) (response : String) :
    (c.insert h now prompt max_tokens response).memory_usage
        ≤ (c.insert h now prompt max_tokens response).max_memory_usage ∨
      (c.insert h now prompt max_tokens response).keys_queue
        = [h prompt max_tokens] := by
  unfold ResponseCache.insert
  rcases insertEnforce_fit (insertDedup c (h prompt max_tokens))
      (response.length + prompt.length + 64) with hfit | hempty
  · left
    show (insertEvict _).estimated_memory_usage
          + (response.length + prompt.length + 64)
        ≤ (insertEvict _).max_memory_usage
    rw [insertEvict_max_memory]
    have hle := insertEvict_est_le
      (insertEnforce (insertDedup c (h prompt max_tokens))
        (response.length + prompt.length + 64))
    omega
  · right
    show (insertEvict _).keys_queue ++ [h prompt max_tokens]
        = [h prompt max_tokens]
    rw [insertEvict_queue_nil _ hempty, hempty]
    rfl

/-! ## Cache round-trip and TTL -/

lemma insert_lookup_self (h : String → Option Nat → Nat) (c : ResponseCache)
    (now : Nat) (prompt : String) (mt : Option Nat) (v : String) :
    lookupKey (c.insert h now prompt mt v).cache (h prompt mt)
      = some ⟨v, now, prompt.length⟩ := by
  unfold ResponseCache.insert
  apply lookupKey_append_self
  apply insertEvict_notMem
  apply insertEnforce_notMem
  exact insertDedup_notMem_self c (h prompt mt)

lemma get_insert (h : String → Option Nat → Nat) (c : ResponseCache)
    (t now : Nat) (prompt : String) (mt : Option Nat) (v : String) :
    ResponseCache.get h (c.insert h t prompt mt v) now prompt mt
      = if now - t < CACHE_TTL then some v else none := by
  show (match lookupKey (ResponseCache.insert h c t prompt mt v).cache
          (h prompt mt) with
        | some cached =>
            if cached.is_valid now then some cached.response else none
        | none => none)
      = if now - t < CACHE_TTL then some v else none
  rw [insert_lookup_self]
  show (if CachedResponse.is_valid ⟨v, t, prompt.length⟩ now then some v else none)
      = _
  unfold CachedResponse.is_valid
  by_cases hv : now - t < CACHE_TTL
  · simp [hv]
  · simp [hv]

/-- Claim C5: `insert(k, v)` immediately followed by `get(k)` (at any
not-yet-expired observation time) returns `Some v`; and re-inserting an
existing key replaces the old entry, so after inserting `"a" ↦ "x"` and
then `"a" ↦ "y"` into an empty cache, `get "a"` returns `"y"`, the
cache size is 1, and the eviction queue holds the key exactly once. -/
theorem c5_round_trip :
    (∀ (h : String → Option Nat → Nat) (c : ResponseCache) (t now : Nat)
        (prompt : String) (mt : Option Nat) (v : String),
        t ≤ now → now < t + CACHE_TTL →
        ResponseCache.get h (c.insert h t prompt mt v) now prompt mt = some v) ∧
    (ResponseCache.get h0
        (((mkCache 10 1000).insert h0 0 "a" none "x").insert h0 0 "a" none "y")
        0 "a" none = some "y" ∧
      (((mkCache 10 1000).insert h0 0 "a" none "x").insert h0 0 "a" none
          "y").size = 1 ∧
      (((mkCache 10 1000).insert h0 0 "a" none "x").insert h0 0 "a" none
          "y").keys_queue = [h0 "a" none]) := by
  constructor
  · intro h c t now prompt mt v ht hnow
    rw [get_insert, if_pos (by omega)]
  · refine ⟨?_, ?_, ?_⟩ <;> decide

/-- Witness for C5: a fresh insert read back one second later. -/
theorem c5_round_trip_witness :
    ResponseCache.get h0 ((mkCache 5 1000).insert h0 0 "b" none "z") 1 "b" none
      = some "z" :=
  c5_round_trip.1 h0 (mkCache 5 1000) 0 1 "b" none "z" (by decide) (by decide)

/-- Claim C6: an entry inserted at `T0` is returned by `get` at every
observation time `T` with `T0 ≤ T < T0 + TTL` and is reported absent at
every `T ≥ T0 + TTL`; validity is recomputed from the clock on every
read (`is_valid` takes the observation time), never cached. -/
theorem c6_ttl (h : String → Option Nat → Nat) (c : ResponseCache)
    (t0 T : Nat) (prompt : String) (mt : Option Nat) (v : String) :
    (t0 ≤ T → T < t0 + CACHE_TTL →
      ResponseCache.get h (c.insert h t0 prompt mt v) T prompt mt = some v) ∧
    (t0 + CACHE_TTL ≤ T →
      ResponseCache.get h (c.insert h t0 prompt mt v) T prompt mt = none) := by
  constructor
  · intro h1 h2
    rw [get_insert, if_pos (by omega)]
  · intro h1
    rw [get_insert, if_neg (by omega)]

/-- Witness for C6: an entry inserted at time 100 is present at 200 and
gone at 3700 ( = 100 + 3600). -/
theorem c6_ttl_witness :
    ResponseCache.get h0 ((mkCache 5 1000).insert h0 100 "c" none "w") 200
        "c" none = some "w" ∧
      ResponseCache.get h0 ((mkCache 5 1000).insert h0 100 "c" none "w") 3700
        "c" none = none :=
  ⟨(c6_ttl h0 (mkCache 5 1000) 100 200 "c" none "w").1 (by decide) (by decide),
   (c6_ttl h0 (mkCache 5 1000) 100 3700 "c" none "w").2 (by decide)⟩

/-! ## Cache memory accounting (C3) -/

lemma liveSumL_cons (kv : Nat × CachedResponse) (rest : List (Nat × CachedResponse)) :
    liveSumL (kv :: rest) = entrySize kv.2 + liveSumL rest := by
  simp [liveSumL]

lemma liveSumL_append (l1 l2 : List (Nat × CachedResponse)) :
    liveSumL (l1 ++ l2) = liveSumL l1 + liveSumL l2 := by
  simp [liveSumL]

lemma eraseKey_sum_le {l : List (Nat × CachedResponse)} {k : Nat}
    {e : CachedResponse} (hl : lookupKey l k = some e) :
    entrySize e + liveSumL (eraseKey l k) ≤ liveSumL l := by
  induction l with
  | nil => simp [lookupKey] at hl
  | cons kv rest ih =>
      obtain ⟨k', v⟩ := kv
      by_cases hk : k' = k
      · subst hk
        rw [lookupKey_cons, if_pos rfl] at hl
        injection hl with hl
        subst hl
        rw [eraseKey_cons, if_pos rfl, liveSumL_cons]
        have hv : entrySize ((k', v) : Nat × CachedResponse).2 = entrySize v := rfl
        rw [hv]
        have : liveSumL (eraseKey rest k') ≤ liveSumL rest := by
          have hs := ((eraseKey_sublist rest k').map
            (fun kv => entrySize kv.2)).sum_le_sum (by intro x hx; omega)
          simpa [liveSumL] using hs
        omega
      · rw [lookupKey_cons, if_neg hk] at hl
        rw [eraseKey_cons, if_neg hk, liveSumL_cons, liveSumL_cons]
        have := ih hl
        omega

lemma entrySize_le_liveSumL {l : List (Nat × CachedResponse)} {k : Nat}
    {e : CachedResponse} (hl : lookupKey l k = some e) :
    entrySize e ≤ liveSumL l := by
  induction l with
  | nil => simp [lookupKey] at hl
  | cons kv rest ih =>
      obtain ⟨k', v⟩ := kv
      rw [liveSumL_cons]
      have hv : entrySize ((k', v) : Nat × CachedResponse).2 = entrySize v := rfl
      rw [hv]
      by_cases hk : k' = k
      · rw [lookupKey_cons, if_pos hk] at hl
        injection hl with hl
        subst hl
        omega
      · rw [lookupKey_cons, if_neg hk] at hl
        have := ih hl
        omega

lemma cacheInv_remove (c : ResponseCache) (k : Nat)
    (hI : liveSum c ≤ c.estimated_memory_usage) :
    liveSum (c.remove_entry k) ≤ (c.remove_entry k).estimated_memory_usage := by
  cases hl : lookupKey c.cache k with
  | none =>
      have hc : (c.remove_entry k).cache = c.cache := by
        rw [remove_entry_cache, eraseKey_of_notMem ((lookupKey_eq_none _ _).mp hl)]
      have he : (c.remove_entry k).estimated_memory_usage
          = c.estimated_memory_usage := by
        unfold ResponseCache.remove_entry
        rw [hl]
      unfold liveSum at *
      rw [hc, he]
      exact hI
  | some e =>
      have hc : (c.remove_entry k).cache = eraseKey c.cache k :=
        remove_entry_cache c k
      have he := remove_entry_est_some c k e hl
      have h1 := eraseKey_sum_le hl
      have h2 : e.response.length + 64 ≤ entrySize e := by
        unfold entrySize
        omega
      unfold liveSum at *
      rw [hc, he]
      omega

lemma cacheInv_enforce (c : ResponseCache) (needed : Nat)
    (hI : liveSum c ≤ c.estimated_memory_usage) :
    liveSum (c.enforce_memory_limit needed)
      ≤ (c.enforce_memory_limit needed).estimated_memory_usage :=
  enforce_pres' (fun x => liveSum x ≤ x.estimated_memory_usage)
    cacheInv_remove (fun _ _ hP => hP) c needed hI

lemma cacheInv_insert (h : String → Option Nat → Nat) (c : ResponseCache)
    (now : Nat) (prompt : String) (mt : Option Nat) (v : String)
    (hI : liveSum c ≤ c.estimated_memory_usage) :
    liveSum (c.insert h now prompt mt v)
      ≤ (c.insert h now prompt mt v).estimated_memory_usage := by
  have h1 : liveSum (insertDedup c (h prompt mt))
      ≤ (insertDedup c (h prompt mt)).estimated_memory_usage := by
    unfold insertDedup
    split
    · exact cacheInv_remove c _ hI
    · exact hI
  have h2 : liveSum (insertEnforce (insertDedup c (h prompt mt))
        (v.length + prompt.length + 64))
      ≤ (insertEnforce (insertDedup c (h prompt mt))
        (v.length + prompt.length + 64)).estimated_memory_usage := by
    unfold insertEnforce
    split
    · exact cacheInv_enforce _ _ h1
    · exact h1
  have h3 : liveSum (insertEvict (insertEnforce (insertDedup c (h prompt mt))
        (v.length + prompt.length + 64)))
      ≤ (insertEvict (insertEnforce (insertDedup c (h prompt mt))
        (v.length + prompt.length + 64))).estimated_memory_usage := by
    unfold insertEvict
    split
    · split
      · exact h2
      · exact cacheInv_remove _ _ h2
    · exact h2
  show liveSumL ((insertEvict (insertEnforce (insertDedup c (h prompt mt))
          (v.length + prompt.length + 64))).cache
        ++ [(h prompt mt, ⟨v, now, prompt.length⟩)])
      ≤ (insertEvict (insertEnforce (insertDedup c (h prompt mt))
          (v.length + prompt.length + 64))).estimated_memory_usage
        + (v.length + prompt.length + 64)
  rw [liveSumL_append]
  have h4 : liveSumL [((h prompt mt : Nat), (⟨v, now, prompt.length⟩ : CachedResponse))]
      = v.length + prompt.length + 64 := by
    simp [liveSumL, entrySize]
  unfold liveSum at h3
  omega

lemma foldl_remove_pres (P : ResponseCache → Prop)
    (hrem : ∀ c k, P c → P (c.remove_entry k)) :
    ∀ (ks : List Nat) (c : ResponseCache), P c →
      P (ks.foldl (fun acc k => acc.remove_entry k) c) := by
  intro ks
  induction ks with
  | nil => intro c hP; exact hP
  | cons k ks ih =>
      intro c hP
      rw [List.foldl_cons]
      exact ih _ (hrem c k hP)

lemma cacheInv_clean (c : ResponseCache) (now : Nat)
    (hI : liveSum c ≤ c.estimated_memory_usage) :
    liveSum (c.clean now).1 ≤ ((c.clean now).1).estimated_memory_usage :=
  foldl_remove_pres (fun x => liveSum x ≤ x.estimated_memory_usage)
    cacheInv_remove _ c hI

lemma runOps_inv (h : String → Option Nat → Nat) :
    ∀ (ops : List CacheOp) (c : ResponseCache),
      liveSum c ≤ c.estimated_memory_usage →
      liveSum (runOps h c ops) ≤ (runOps h c ops).estimated_memory_usage := by
  intro ops
  induction ops with
  | nil => intro c hI; exact hI
  | cons op ops ih =>
      intro c hI
      show liveSum (runOps h (applyOp h c op) ops) ≤ _
      apply ih
      cases op with
      | ins now prompt mt v => exact cacheInv_insert h c now prompt mt v hI
      | rem k => exact cacheInv_remove c k hI
      | cln now => exact cacheInv_clean c now hI

/-- Claim C3, counterexample to the claim as stated: insert the entry
`"a" ↦ ""` (estimated size `0 + 1 + 64 = 65`) into an empty cache and
then remove it.  The cache is empty again — the sum of live entries'
estimated sizes is 0 — but `memory_usage()` reports 1, because
`remove_entry` freed only `response.len() + 64 = 64` of the 65 charged
(the key length is never subtracted). -/
theorem c3_accounting_cex :
    (((mkCache 1000 1000000).insert h0 0 "a" none "").remove_entry
        (h0 "a" none)).cache = [] ∧
      (((mkCache 1000 1000000).insert h0 0 "a" none "").remove_entry
        (h0 "a" none)).memory_usage = 1 := by
  constructor <;> decide

/-- Claim C3 (amended): `remove_entry` decrements the byte estimate by
exactly the removed entry's value length plus the 64-byte overhead —
the key length, which `insert` charged, is not subtracted.  Hence on
every cache state reachable from an empty cache by `insert`,
`remove_entry` and `clean`, the running estimate is at least (not equal
to) the sum of the live entries' estimated sizes, the excess being the
accumulated key lengths of removed entries. -/
theorem c3_accounting (h : String → Option Nat → Nat)
    (max_size max_memory : Nat) (ops : List CacheOp) :
    liveSum (runOps h (mkCache max_size max_memory) ops)
        ≤ (runOps h (mkCache max_size max_memory) ops).memory_usage ∧
      ∀ k e, lookupKey (runOps h (mkCache max_size max_memory) ops).cache k
          = some e →
        ((runOps h (mkCache max_size max_memory) ops).remove_entry
            k).memory_usage + (e.response.length + 64)
          = (runOps h (mkCache max_size max_memory) ops).memory_usage := by
  have hinv := runOps_inv h ops (mkCache max_size max_memory)
    (by unfold liveSum liveSumL mkCache; simp)
  constructor
  · exact hinv
  · intro k e hl
    have h1 := entrySize_le_liveSumL hl
    have h2 := remove_entry_est_some _ k e hl
    have h3 : e.response.length + 64 ≤ entrySize e := by
      unfold entrySize
      omega
    unfold ResponseCache.memory_usage liveSum at *
    omega

/-- Witness for C3 (amended) on the one-insert trace: the entry
`"ab" ↦ "xyz"` is live, the invariant holds, and removing it frees
exactly `3 + 64` bytes. -/
theorem c3_accounting_witness :
    liveSum (runOps h0 (mkCache 1000 1000000)
          [CacheOp.ins 0 "ab" none "xyz"])
        ≤ (runOps h0 (mkCache 1000 1000000)
          [CacheOp.ins 0 "ab" none "xyz"]).memory_usage ∧
      ((runOps h0 (mkCache 1000 1000000)
            [CacheOp.ins 0 "ab" none "xyz"]).remove_entry 2).memory_usage
          + ((3 : Nat) + 64)
        = (runOps h0 (mkCache 1000 1000000)
            [CacheOp.ins 0 "ab" none "xyz"]).memory_usage :=
  ⟨(c3_accounting h0 1000 1000000 [CacheOp.ins 0 "ab" none "xyz"]).1,
   (c3_accounting h0 1000 1000000 [CacheOp.ins 0 "ab" none "xyz"]).2 2
      ⟨"xyz", 0, 2⟩ (by decide)⟩

/-! ## Cache capacity (C8) -/

/-- An insertion request: prompt, max-tokens option, response. -/
abbrev CacheItem := String × Option Nat × String

/-- The fingerprint of an insertion request. -/
def keyOf (h : String → Option Nat → Nat) (it : CacheItem) : Nat := h it.1 it.2.1

/-- The estimated entry size charged for an insertion request. -/
def itemSize (it : CacheItem) : Nat := it.2.2.length + it.1.length + 64

/-- The map binding produced by an insertion request at time `now`. -/
def entryOf (h : String → Option Nat → Nat) (now : Nat) (it : CacheItem) :
    Nat × CachedResponse := (keyOf h it, ⟨it.2.2, now, it.1.length⟩)

/-- Total estimated size of a batch of insertion requests. -/
def totalSize (items : List CacheItem) : Nat := (items.map itemSize).sum

/-- Inserting a batch of requests in order, all at time `now`. -/
def insertMany (h : String → Option Nat → Nat) (c : ResponseCache) (now : Nat)
    (items : List CacheItem) : ResponseCache :=
  items.foldl (fun acc it => acc.insert h now it.1 it.2.1 it.2.2) c

lemma map_fst_map_entryOf (h : String → Option Nat → Nat) (now : Nat)
    (items : List CacheItem) :
    (items.map (entryOf h now)).map Prod.fst = items.map (keyOf h) := by
  rw [List.map_map]
  rfl

lemma totalSize_append (l1 l2 : List CacheItem) :
    totalSize (l1 ++ l2) = totalSize l1 + totalSize l2 := by
  simp [totalSize]

lemma insertMany_canon (h : String → Option Nat → Nat) (N M now : Nat) :
    ∀ (items : List CacheItem), (items.map (keyOf h)).Nodup →
      items.length ≤ N → totalSize items ≤ M →
      insertMany h (mkCache N M) now items
        = ⟨items.map (entryOf h now), items.map (keyOf h), N, totalSize items, M⟩ := by
  intro items
  induction items using List.reverseRecOn with
  | nil => intro _ _ _; rfl
  | append_singleton ys x ih =>
      intro hnd hlen hM
      rw [List.map_append] at hnd
      have hnd' : (ys.map (keyOf h)).Nodup := (List.nodup_append.mp hnd).1
      have hkey : keyOf h x ∉ ys.map (keyOf h) := by
        intro hc
        exact (List.nodup_append.mp hnd).2.2 hc (by simp)
      have hlen' : ys.length ≤ N := by
        simp only [List.length_append, List.length_cons, List.length_nil] at hlen
        omega
      have htot : totalSize (ys ++ [x]) = totalSize ys + itemSize x := by
        rw [totalSize_append]
        simp [totalSize]
      have hM' : totalSize ys ≤ M := by omega
      have hstep : insertMany h (mkCache N M) now (ys ++ [x])
          = ResponseCache.insert h (insertMany h (mkCache N M) now ys) now
              x.1 x.2.1 x.2.2 := by
        unfold insertMany
        rw [List.foldl_append, List.foldl_cons, List.foldl_nil]
      rw [hstep, ih hnd' hlen' hM']
      set CANON : ResponseCache :=
        ⟨ys.map (entryOf h now), ys.map (keyOf h), N, totalSize ys, M⟩ with hCANON
      have hlookup : lookupKey CANON.cache (h x.1 x.2.1) = none := by
        apply (lookupKey_eq_none _ _).mpr
        show h x.1 x.2.1 ∉ (ys.map (entryOf h now)).map Prod.fst
        rw [map_fst_map_entryOf]
        exact hkey
      have hd : insertDedup CANON (h x.1 x.2.1) = CANON := by
        unfold insertDedup
        rw [hlookup]
        rfl
      have he : insertEnforce CANON (x.2.2.length + x.1.length + 64) = CANON := by
        unfold insertEnforce
        rw [if_neg]
        show ¬ (totalSize ys + (x.2.2.length + x.1.length + 64) > M)
        have : itemSize x = x.2.2.length + x.1.length + 64 := rfl
        omega
      have hlt : ys.length < N := by
        simp only [List.length_append, List.length_cons, List.length_nil] at hlen
        omega
      have hev : insertEvict CANON = CANON := by
        unfold insertEvict
        rw [if_neg]
        show ¬ ((ys.map (entryOf h now)).length ≥ N)
        rw [List.length_map]
        omega
      simp only [ResponseCache.insert]
      rw [hd, he, hev]
      show ResponseCache.mk
          (ys.map (entryOf h now) ++ [(h x.1 x.2.1, ⟨x.2.2, now, x.1.length⟩)])
          (ys.map (keyOf h) ++ [h x.1 x.2.1]) N
          (totalSize ys + (x.2.2.length + x.1.length + 64)) M
        = ResponseCache.mk ((ys ++ [x]).map (entryOf h now))
          ((ys ++ [x]).map (keyOf h)) N (totalSize (ys ++ [x])) M
      rw [List.map_append, List.map_append, htot]
      rfl

lemma ResponseCache.ext' (a b : ResponseCache)
    (h1 : a.cache = b.cache) (h2 : a.keys_queue = b.keys_queue)
    (h3 : a.max_size = b.max_size)
    (h4 : a.estimated_memory_usage = b.estimated_memory_usage)
    (h5 : a.max_memory_usage = b.max_memory_usage) : a = b := by
  cases a
  cases b
  simp_all

lemma map_fst_eraseKey_nodup {l : List (Nat × CachedResponse)} (k : Nat)
    (hnd : (l.map Prod.fst).Nodup) :
    (eraseKey l k).map Prod.fst = removeFirst (l.map Prod.fst) k := by
  induction l with
  | nil => rfl
  | cons kv rest ih =>
      rw [List.map_cons, List.nodup_cons] at hnd
      by_cases hk : kv.1 = k
      · rw [eraseKey_cons, if_pos hk, List.map_cons, removeFirst_cons, if_pos hk]
        rw [eraseKey_of_notMem (hk ▸ hnd.1)]
      · rw [eraseKey_cons, if_neg hk, List.map_cons, List.map_cons,
          removeFirst_cons, if_neg hk, ih hnd.2]

/-- Well-formedness of cache bookkeeping: the eviction queue lists the
map's keys in map order, without duplicates.  This holds for every
state reachable from an empty cache. -/
def cacheWF (c : ResponseCache) : Prop :=
  c.cache.map Prod.fst = c.keys_queue ∧ c.keys_queue.Nodup

lemma cacheWF_remove (c : ResponseCache) (k : Nat) (hwf : cacheWF c) :
    cacheWF (c.remove_entry k)
      ∧ (c.remove_entry k).cache.length ≤ c.cache.length := by
  obtain ⟨hal, hnd⟩ := hwf
  have hnd' : (c.cache.map Prod.fst).Nodup := by
    rw [hal]
    exact hnd
  refine ⟨⟨?_, ?_⟩, ?_⟩
  · rw [remove_entry_cache, remove_entry_queue, map_fst_eraseKey_nodup k hnd', hal]
  · rw [remove_entry_queue]
    exact hnd.sublist (removeFirst_sublist _ _)
  · rw [remove_entry_cache]
    exact (eraseKey_sublist _ _).length_le

lemma cacheWF_pop (c : ResponseCache) (k : Nat) (rest : List Nat)
    (hwf : cacheWF c) (hq : c.keys_queue = k :: rest) :
    cacheWF (ResponseCache.remove_entry { c with keys_queue := rest } k)
      ∧ (ResponseCache.remove_entry
          { c with keys_queue := rest } k).cache.length + 1 = c.cache.length := by
  obtain ⟨hal, hnd⟩ := hwf
  rw [hq] at hal hnd
  rw [List.nodup_cons] at hnd
  cases hcc : c.cache with
  | nil =>
      rw [hcc] at hal
      cases hal
  | cons kv tail =>
      obtain ⟨k1, v1⟩ := kv
      rw [hcc, List.map_cons] at hal
      injection hal with h1 h2
      have hkt : k ∉ tail.map Prod.fst := by
        rw [h2]
        exact hnd.1
      have hcache : (ResponseCache.remove_entry
          { c with keys_queue := rest } k).cache = tail := by
        rw [remove_entry_cache]
        show eraseKey c.cache k = tail
        rw [hcc, eraseKey_cons, if_pos h1]
        exact eraseKey_of_notMem hkt
      have hqueue : (ResponseCache.remove_entry
          { c with keys_queue := rest } k).keys_queue = rest := by
        rw [remove_entry_queue]
        show removeFirst rest k = rest
        exact removeFirst_of_notMem hnd.1
      rw [hcc] at hcache hqueue
      refine ⟨⟨?_, ?_⟩, ?_⟩
      · rw [hcache, hqueue, h2]
      · rw [hqueue]
        exact hnd.2
      · rw [hcache]
        simp

lemma cacheWF_enforce : ∀ (n : Nat) (c : ResponseCache) (needed : Nat),
    c.keys_queue.length ≤ n → cacheWF c →
    (cacheWF (c.enforce_memory_limit needed)
      ∧ (c.enforce_memory_limit needed).cache.length ≤ c.cache.length) := by
  intro n
  induction n with
  | zero =>
      intro c needed hlen hwf
      rw [enforce_nil c needed (List.length_eq_zero.mp (Nat.le_zero.mp hlen))]
      exact ⟨hwf, le_refl _⟩
  | succ n ih =>
      intro c needed hlen hwf
      cases hq : c.keys_queue with
      | nil =>
          rw [enforce_nil c needed hq]
          exact ⟨hwf, le_refl _⟩
      | cons k rest =>
          rw [enforce_cons c needed k rest hq]
          by_cases hcond : c.estimated_memory_usage + needed > c.max_memory_usage
          · rw [if_pos hcond]
            obtain ⟨hwf', hlen'⟩ := cacheWF_pop c k rest ⟨hwf.1, hwf.2⟩ hq
            have hql : (ResponseCache.remove_entry
                { c with keys_queue := rest } k).keys_queue.length ≤ n := by
              rw [remove_entry_queue]
              show (removeFirst rest k).length ≤ n
              have h1 := removeFirst_length_le rest k
              rw [hq] at hlen
              simp at hlen
              omega
            obtain ⟨hwf2, hlen2⟩ := ih _ needed hql hwf'
            exact ⟨hwf2, by omega⟩
          · rw [if_neg hcond]
            exact ⟨hwf, le_refl _⟩

lemma insert_max_size (h : String → Option Nat → Nat) (c : ResponseCache)
    (now : Nat) (prompt : String) (mt : Option Nat) (v : String) :
    (c.insert h now prompt mt v).max_size = c.max_size := by
  show (insertEvict (insertEnforce (insertDedup c (h prompt mt))
      (v.length + prompt.length + 64))).max_size = c.max_size
  rw [insertEvict_max_size, insertEnforce_max_size, insertDedup_max_size]

lemma cacheWF_insert (h : String → Option Nat → Nat) (c : ResponseCache)
    (now : Nat) (prompt : String) (mt : Option Nat) (v : String)
    (hwf : cacheWF c) (hsz : c.cache.length ≤ c.max_size) (hN : 1 ≤ c.max_size) :
    cacheWF (c.insert h now prompt mt v)
      ∧ (c.insert h now prompt mt v).cache.length ≤ c.max_size := by
  have h1 : cacheWF (insertDedup c (h prompt mt))
      ∧ (insertDedup c (h prompt mt)).cache.length ≤ c.max_size := by
    unfold insertDedup
    split
    · obtain ⟨a, b⟩ := cacheWF_remove c (h prompt mt) hwf
      exact ⟨a, by omega⟩
    · exact ⟨hwf, hsz⟩
  have hm1 : (insertDedup c (h prompt mt)).max_size = c.max_size :=
    insertDedup_max_size c _
  have hk1 : (h prompt mt) ∉ (insertDedup c (h prompt mt)).cache.map Prod.fst :=
    insertDedup_notMem_self c _
  have h2 : cacheWF (insertEnforce (insertDedup c (h prompt mt))
        (v.length + prompt.length + 64))
      ∧ (insertEnforce (insertDedup c (h prompt mt))
        (v.length + prompt.length + 64)).cache.length ≤ c.max_size := by
    unfold insertEnforce
    split
    · obtain ⟨a, b⟩ := cacheWF_enforce
        (insertDedup c (h prompt mt)).keys_queue.length _ _ (le_refl _) h1.1
      exact ⟨a, by omega⟩
    · exact h1
  have hm2 : (insertEnforce (insertDedup c (h prompt mt))
      (v.length + prompt.length + 64)).max_size = c.max_size := by
    rw [insertEnforce_max_size]
    exact hm1
  have hk2 : (h prompt mt) ∉ (insertEnforce (insertDedup c (h prompt mt))
      (v.length + prompt.length + 64)).cache.map Prod.fst :=
    insertEnforce_notMem _ _ _ hk1
  have h3 : cacheWF (insertEvict (insertEnforce (insertDedup c (h prompt mt))
        (v.length + prompt.length + 64)))
      ∧ (insertEvict (insertEnforce (insertDedup c (h prompt mt))
        (v.length + prompt.length + 64))).cache.length + 1 ≤ c.max_size := by
    unfold insertEvict
    split
    · rename_i hge
      cases hq : (insertEnforce (insertDedup c (h prompt mt))
          (v.length + prompt.length + 64)).keys_queue with
      | nil =>
          exfalso
          have hmape : (insertEnforce (insertDedup c (h prompt mt))
              (v.length + prompt.length + 64)).cache.map Prod.fst = [] := by
            rw [h2.1.1, hq]
          have hce := List.map_eq_nil.mp hmape
          rw [hce] at hge
          simp at hge
          omega
      | cons k rest =>
          obtain ⟨hwf', hlen'⟩ := cacheWF_pop _ k rest h2.1 hq
          have hcl := h2.2
          refine ⟨hwf', ?_⟩
          show (ResponseCache.remove_entry
              { insertEnforce (insertDedup c (h prompt mt))
                  (v.length + prompt.length + 64) with
                keys_queue := rest } k).cache.length + 1 ≤ c.max_size
          have hlen2 : (ResponseCache.remove_entry
              { insertEnforce (insertDedup c (h prompt mt))
                  (v.length + prompt.length + 64) with
                keys_queue := rest } k).cache.length + 1
              = (insertEnforce (insertDedup c (h prompt mt))
                  (v.length + prompt.length + 64)).cache.length := hlen'
          omega
    · rename_i hlt
      have := hm2
      exact ⟨h2.1, by omega⟩
  have hk3 : (h prompt mt) ∉ (insertEvict (insertEnforce
      (insertDedup c (h prompt mt))
      (v.length + prompt.length + 64))).cache.map Prod.fst :=
    insertEvict_notMem _ _ hk2
  have hfinc : (c.insert h now prompt mt v).cache
      = (insertEvict (insertEnforce (insertDedup c (h prompt mt))
          (v.length + prompt.length + 64))).cache
        ++ [(h prompt mt, ⟨v, now, prompt.length⟩)] := rfl
  have hfinq : (c.insert h now prompt mt v).keys_queue
      = (insertEvict (insertEnforce (insertDedup c (h prompt mt))
          (v.length + prompt.length + 64))).keys_queue
        ++ [h prompt mt] := rfl
  refine ⟨⟨?_, ?_⟩, ?_⟩
  · rw [hfinc, hfinq, List.map_append, h3.1.1]
    rfl
  · rw [hfinq]
    apply List.Nodup.append h3.1.2 (by simp)
    intro a ha hmem
    simp at hmem
    subst hmem
    rw [← h3.1.1] at ha
    exact hk3 ha
  · rw [hfinc]
    rw [List.length_append]
    have := h3.2
    simp
    omega

/-- Bookkeeping invariant used for the item-count bound: well-formed
queue, at most `N` entries, ceiling equal to `N`. -/
def sizeInv (N : Nat) (c : ResponseCache) : Prop :=
  cacheWF c ∧ c.cache.length ≤ N ∧ c.max_size = N

lemma sizeInv_remove (N : Nat) (c : ResponseCache) (k : Nat)
    (hI : sizeInv N c) : sizeInv N (c.remove_entry k) := by
  obtain ⟨hwf, hlen, hmax⟩ := hI
  obtain ⟨hwf', hlen'⟩ := cacheWF_remove c k hwf
  refine ⟨hwf', by omega, ?_⟩
  rw [remove_entry_max_size]
  exact hmax

lemma sizeInv_runOps (h : String → Option Nat → Nat) (N : Nat) (hN : 1 ≤ N) :
    ∀ (ops : List CacheOp) (c : ResponseCache),
      sizeInv N c → sizeInv N (runOps h c ops) := by
  intro ops
  induction ops with
  | nil => exact fun c hI => hI
  | cons op ops ih =>
      intro c hI
      apply ih
      obtain ⟨hwf, hlen, hmax⟩ := hI
      cases op with
      | ins now prompt mt v =>
          obtain ⟨hwf', hlen'⟩ := cacheWF_insert h c now prompt mt v hwf
            (by rw [hmax]; exact hlen) (by rw [hmax]; exact hN)
          rw [hmax] at hlen'
          refine ⟨hwf', hlen', ?_⟩
          show (c.insert h now prompt mt v).max_size = N
          rw [insert_max_size]
          exact hmax
      | rem k => exact sizeInv_remove N c k ⟨hwf, hlen, hmax⟩
      | cln now =>
          exact foldl_remove_pres (sizeInv N)
            (fun c' k hP => sizeInv_remove N c' k hP) _ c ⟨hwf, hlen, hmax⟩

/-- Claim C8, counterexample to the claim as stated: a cache whose
item-count ceiling is `N = 0` (the `derive(Default)` state) accepts an
insert with zero evictions (the queue is empty, so the pop yields
nothing) and then holds 1 > 0 entries, while the claim requires exactly
one eviction and at most `N` entries. -/
theorem c8_zero_capacity_cex :
    (insertMany h0 (mkCache 0 100) 0 [("a", none, "x")]).size = 1 := by
  decide

set_option maxHeartbeats 1600000

/-- Claim C8 (amended: for item-count ceilings `N ≥ 1`): inserting
`N + 1` distinct keys (whose total estimated size fits the byte budget)
into an empty cache of ceiling `N` leaves exactly `N` entries — exactly
one eviction — and the evicted key is the first (oldest) inserted one:
the surviving map and queue are exactly those of the last `N` items in
insertion order.  Moreover every state reachable from an empty cache of
ceiling `N ≥ 1` by `insert`, `remove_entry` and `clean` holds at most
`N` entries. -/
theorem c8_capacity (h : String → Option Nat → Nat) (N M now : Nat)
    (items : List CacheItem) (ops : List CacheOp)
    (hN : 1 ≤ N) (hlen : items.length = N + 1)
    (hnd : (items.map (keyOf h)).Nodup) (hM : totalSize items ≤ M) :
    (insertMany h (mkCache N M) now items).size = N
      ∧ (insertMany h (mkCache N M) now items).cache
          = (items.drop 1).map (entryOf h now)
      ∧ (insertMany h (mkCache N M) now items).keys_queue
          = (items.map (keyOf h)).drop 1
      ∧ (runOps h (mkCache N M) ops).size ≤ N := by
  have hrun : (runOps h (mkCache N M) ops).size ≤ N := by
    have hI := sizeInv_runOps h N hN ops (mkCache N M)
      ⟨⟨rfl, List.nodup_nil⟩, by simp [mkCache], rfl⟩
    exact hI.2.1
  rcases List.eq_nil_or_concat items with rfl | ⟨ys, x, rfl⟩
  · simp at hlen
  · simp only [List.concat_eq_append] at hlen hnd hM ⊢
    cases ys with
    | nil =>
        exfalso
        simp at hlen
        omega
    | cons y0 ytail =>
        rw [List.map_append] at hnd
        obtain ⟨hnd1, hnd2, hdisj⟩ := List.nodup_append.mp hnd
        have hkeyx : keyOf h x ∉ (y0 :: ytail).map (keyOf h) :=
          fun hc => hdisj hc (by simp)
        have hy0key : keyOf h y0 ∉ ytail.map (keyOf h) := by
          have h' := hnd1
          rw [List.map_cons, List.nodup_cons] at h'
          exact h'.1
        have hyslen : (y0 :: ytail).length = N := by
          simp only [List.length_append, List.length_cons, List.length_nil]
            at hlen ⊢
          omega
        have htot : totalSize ((y0 :: ytail) ++ [x])
            = totalSize (y0 :: ytail) + itemSize x := by
          rw [totalSize_append]
          simp [totalSize]
        have hMys : totalSize (y0 :: ytail) ≤ M := by omega
        have hcanon := insertMany_canon h N M now (y0 :: ytail) hnd1
          (by omega) hMys
        have hstep : insertMany h (mkCache N M) now ((y0 :: ytail) ++ [x])
            = ResponseCache.insert h
                (insertMany h (mkCache N M) now (y0 :: ytail)) now
                x.1 x.2.1 x.2.2 := by
          unfold insertMany
          rw [List.foldl_append, List.foldl_cons, List.foldl_nil]
        rw [hstep, hcanon]
        have hlookup : lookupKey
            ((⟨(y0 :: ytail).map (entryOf h now), (y0 :: ytail).map (keyOf h),
                N, totalSize (y0 :: ytail), M⟩ : ResponseCache)).cache
            (h x.1 x.2.1) = none := by
          apply (lookupKey_eq_none _ _).mpr
          show h x.1 x.2.1 ∉ ((y0 :: ytail).map (entryOf h now)).map Prod.fst
          rw [map_fst_map_entryOf]
          exact hkeyx
        have hd : insertDedup
            ⟨(y0 :: ytail).map (entryOf h now), (y0 :: ytail).map (keyOf h),
              N, totalSize (y0 :: ytail), M⟩ (h x.1 x.2.1)
            = ⟨(y0 :: ytail).map (entryOf h now), (y0 :: ytail).map (keyOf h),
              N, totalSize (y0 :: ytail), M⟩ := by
          unfold insertDedup
          rw [hlookup]
          rfl
        have he : insertEnforce
            ⟨(y0 :: ytail).map (entryOf h now), (y0 :: ytail).map (keyOf h),
              N, totalSize (y0 :: ytail), M⟩
            (x.2.2.length + x.1.length + 64)
            = ⟨(y0 :: ytail).map (entryOf h now), (y0 :: ytail).map (keyOf h),
              N, totalSize (y0 :: ytail), M⟩ := by
          unfold insertEnforce
          rw [if_neg]
          show ¬ (totalSize (y0 :: ytail) + (x.2.2.length + x.1.length + 64) > M)
          have hx : itemSize x = x.2.2.length + x.1.length + 64 := rfl
          omega
        have hev : insertEvict
            ⟨(y0 :: ytail).map (entryOf h now), (y0 :: ytail).map (keyOf h),
              N, totalSize (y0 :: ytail), M⟩
            = ResponseCache.remove_entry
                ⟨(y0 :: ytail).map (entryOf h now), ytail.map (keyOf h),
                  N, totalSize (y0 :: ytail), M⟩ (keyOf h y0) := by
          unfold insertEvict
          rw [if_pos (show ((y0 :: ytail).map (entryOf h now)).length ≥ N by
            rw [List.length_map, hyslen])]
          rfl
        have hrem : ResponseCache.remove_entry
            ⟨(y0 :: ytail).map (entryOf h now), ytail.map (keyOf h), N,
              totalSize (y0 :: ytail), M⟩ (keyOf h y0)
            = ⟨ytail.map (entryOf h now), ytail.map (keyOf h), N,
                totalSize (y0 :: ytail) - (y0.2.2.length + 64), M⟩ := by
          have hlook0 : lookupKey ((y0 :: ytail).map (entryOf h now))
              (keyOf h y0) = some ⟨y0.2.2, now, y0.1.length⟩ := by
            rw [List.map_cons]
            show lookupKey ((keyOf h y0, ⟨y0.2.2, now, y0.1.length⟩)
                :: ytail.map (entryOf h now)) (keyOf h y0) = _
            rw [lookupKey_cons, if_pos rfl]
          apply ResponseCache.ext'
          · rw [remove_entry_cache]
            show eraseKey ((y0 :: ytail).map (entryOf h now)) (keyOf h y0)
                = ytail.map (entryOf h now)
            rw [List.map_cons]
            show eraseKey ((keyOf h y0, ⟨y0.2.2, now, y0.1.length⟩)
                :: ytail.map (entryOf h now)) (keyOf h y0) = _
            rw [eraseKey_cons, if_pos rfl]
            apply eraseKey_of_notMem
            rw [map_fst_map_entryOf]
            exact hy0key
          · rw [remove_entry_queue]
            show removeFirst (ytail.map (keyOf h)) (keyOf h y0) = _
            exact removeFirst_of_notMem hy0key
          · rw [remove_entry_max_size]
          · exact remove_entry_est_some
              (⟨(y0 :: ytail).map (entryOf h now), ytail.map (keyOf h), N,
                totalSize (y0 :: ytail), M⟩ : ResponseCache) (keyOf h y0)
              (⟨y0.2.2, now, y0.1.length⟩ : CachedResponse) hlook0
          · rw [remove_entry_max_memory]
        have hins : ResponseCache.insert h
            ⟨(y0 :: ytail).map (entryOf h now), (y0 :: ytail).map (keyOf h),
              N, totalSize (y0 :: ytail), M⟩ now x.1 x.2.1 x.2.2
            = ⟨ytail.map (entryOf h now)
                  ++ [(h x.1 x.2.1, ⟨x.2.2, now, x.1.length⟩)],
                ytail.map (keyOf h) ++ [h x.1 x.2.1], N,
                totalSize (y0 :: ytail) - (y0.2.2.length + 64)
                  + (x.2.2.length + x.1.length + 64), M⟩ := by
          simp only [ResponseCache.insert]
          rw [hd, he, hev, hrem]
        rw [hins]
        refine ⟨?_, ?_, ?_, hrun⟩
        · show (ytail.map (entryOf h now)
              ++ [((h x.1 x.2.1, ⟨x.2.2, now, x.1.length⟩) :
                Nat × CachedResponse)]).length = N
          simp only [List.length_append, List.length_map, List.length_cons,
            List.length_nil] at hyslen ⊢
          omega
        · show ytail.map (entryOf h now)
              ++ [((h x.1 x.2.1, ⟨x.2.2, now, x.1.length⟩) :
                Nat × CachedResponse)]
            = (((y0 :: ytail) ++ [x]).drop 1).map (entryOf h now)
          rw [show (((y0 :: ytail) ++ [x] : List CacheItem)).drop 1
              = ytail ++ [x] from by simp]
          rw [List.map_append]
          rfl
        · show ytail.map (keyOf h) ++ [h x.1 x.2.1]
            = (((y0 :: ytail) ++ [x]).map (keyOf h)).drop 1
          rw [List.map_append]
          rw [show (((y0 :: ytail).map (keyOf h)
                ++ [x].map (keyOf h))).drop 1
              = ytail.map (keyOf h) ++ [x].map (keyOf h) from by simp]
          rfl

/-- Witness for C8 at `N = 1`: inserting the two distinct keys of
prompts `"a"` and `"bb"` leaves one entry, the second one. -/
theorem c8_capacity_witness :
    (insertMany h0 (mkCache 1 200) 0 [("a", none, "x"), ("bb", none, "y")]).size
        = 1
      ∧ (insertMany h0 (mkCache 1 200) 0
            [("a", none, "x"), ("bb", none, "y")]).cache
          = ([(("bb" : String), (none : Option Nat), ("y" : String))]).map
              (entryOf h0 0)
      ∧ (insertMany h0 (mkCache 1 200) 0
            [("a", none, "x"), ("bb", none, "y")]).keys_queue
          = ([("a", none, "x"), ("bb", none, "y")].map (keyOf h0)).drop 1
      ∧ (runOps h0 (mkCache 1 200) []).size ≤ 1 := by
  have hmain := c8_capacity h0 1 200 0 [("a", none, "x"), ("bb", none, "y")]
    [] (by omega) (by decide) (by decide) (by decide)
  exact ⟨hmain.1, hmain.2.1, hmain.2.2.1, hmain.2.2.2⟩

/-! ## Expired entries (C10) -/

lemma foldl_remove_cache (ks : List Nat) :
    ∀ (c : ResponseCache),
      ((ks.foldl (fun acc k => acc.remove_entry k) c)).cache
        = ks.foldl eraseKey c.cache := by
  induction ks with
  | nil => intro c; rfl
  | cons k ks ih =>
      intro c
      rw [List.foldl_cons, List.foldl_cons, ih, remove_entry_cache]

lemma lookupKey_foldl_eraseKey (ks : List Nat) :
    ∀ (l : List (Nat × CachedResponse)) (k : Nat),
      lookupKey (ks.foldl eraseKey l) k
        = if k ∈ ks then none else lookupKey l k := by
  induction ks with
  | nil => intro l k; simp
  | cons k0 ks ih =>
      intro l k
      rw [List.foldl_cons, ih, lookupKey_eraseKey]
      by_cases hks : k ∈ ks
      · simp [hks]
      · by_cases hk0 : k = k0
        · simp [hks, hk0]
        · simp [hks, hk0]

lemma mem_expired_iff (c : ResponseCache) (now k : Nat) (e : CachedResponse)
    (hnd : (c.cache.map Prod.fst).Nodup)
    (hl : lookupKey c.cache k = some e) :
    (k ∈ (c.cache.filter (fun kv => !(kv.2.is_valid now))).map Prod.fst)
      ↔ e.is_valid now = false := by
  constructor
  · intro hmem
    obtain ⟨kv, hkv, hfst⟩ := List.mem_map.mp hmem
    have hkv' : kv ∈ c.cache := List.mem_of_mem_filter hkv
    have hp := List.of_mem_filter hkv
    have hl2 : lookupKey c.cache k = some kv.2 := by
      apply lookupKey_of_mem_nodup hnd
      show (k, kv.2) ∈ c.cache
      rw [← hfst]
      exact hkv'
    rw [hl] at hl2
    injection hl2 with hl2
    rw [hl2]
    simpa using hp
  · intro hinv
    apply List.mem_map.mpr
    refine ⟨(k, e), List.mem_filter.mpr ⟨mem_of_lookupKey hl, ?_⟩, rfl⟩
    simp [hinv]

/-- Demo fixture: a still-valid entry created at time 2000. -/
def demoValid : CachedResponse := ⟨"aaaaaa", 2000, 0⟩

/-- Demo fixture: an expired entry created at time 0. -/
def demoExpired : CachedResponse := ⟨"cccccc", 0, 0⟩

/-- Demo fixture: a cache holding the valid entry (key 7, queue front)
and the expired entry (key 8), 140 estimated bytes against a 210-byte
ceiling. -/
def demoCache : ResponseCache := ⟨[(7, demoValid), (8, demoExpired)], [7, 8], 10, 140, 210⟩

/-- Demo fixture: the same cache without the expired entry. -/
def demoCacheNoExpired : ResponseCache := ⟨[(7, demoValid)], [7], 10, 70, 210⟩

lemma demo_enforce : demoCache.enforce_memory_limit 73
    = ⟨[(8, demoExpired)], [8], 10, 70, 210⟩ := by
  rw [enforce_cons demoCache 73 7 [8] rfl, if_pos (by decide)]
  rw [show ResponseCache.remove_entry { demoCache with keys_queue := [8] } 7
      = (⟨[(8, demoExpired)], [8], 10, 70, 210⟩ : ResponseCache) from by decide]
  rw [enforce_cons _ 73 8 [] rfl, if_neg (by decide)]

lemma demo_insert : demoCache.insert h0 5000 "zzz" none "dddddd"
    = ⟨[(8, demoExpired), (3, ⟨"dddddd", 5000, 3⟩)], [8, 3], 10, 143, 210⟩ := by
  simp only [ResponseCache.insert]
  rw [show (h0 "zzz" none) = 3 from rfl]
  rw [show ("dddddd".length + "zzz".length + 64 : Nat) = 73 from by decide]
  rw [show insertDedup demoCache 3 = demoCache from by decide]
  rw [show insertEnforce demoCache 73
      = (⟨[(8, demoExpired)], [8], 10, 70, 210⟩ : ResponseCache) from by
    unfold insertEnforce
    rw [if_pos (by decide), demo_enforce]]
  rw [show insertEvict (⟨[(8, demoExpired)], [8], 10, 70, 210⟩ : ResponseCache)
      = (⟨[(8, demoExpired)], [8], 10, 70, 210⟩ : ResponseCache) from by decide]
  decide

/-- Claim C10: an entry that is present but expired is reported absent
by `get` (which takes `&self` and, in this model, returns no state at
all — the map, queue, `size()` and `memory_usage()` are untouched by
reads); `clean` removes exactly the invalid entries and keeps the valid
ones; and until `clean` runs, an expired entry keeps counting toward
the byte estimate, so a later `insert` can evict a still-valid entry
(queue front) while the expired one survives — which cannot happen once
the expired entry is cleaned away. -/
theorem c10_expired_entries :
    (∀ (h : String → Option Nat → Nat) (c : ResponseCache) (now : Nat)
        (prompt : String) (mt : Option Nat) (e : CachedResponse),
        lookupKey c.cache (h prompt mt) = some e →
        e.cached_at + CACHE_TTL ≤ now →
        ResponseCache.get h c now prompt mt = none) ∧
    (∀ (c : ResponseCache) (now k : Nat) (e : CachedResponse),
        (c.cache.map Prod.fst).Nodup →
        lookupKey c.cache k = some e →
        lookupKey ((c.clean now).1).cache k
          = if e.is_valid now then some e else none) ∧
    (demoValid.is_valid 5000 = true ∧ demoExpired.is_valid 5000 = false ∧
      lookupKey (demoCache.insert h0 5000 "zzz" none "dddddd").cache 7 = none ∧
      lookupKey (demoCache.insert h0 5000 "zzz" none "dddddd").cache 8
        = some demoExpired ∧
      lookupKey (demoCacheNoExpired.insert h0 5000 "zzz" none "dddddd").cache 7
        = some demoValid ∧
      lookupKey (((demoCache.insert h0 5000 "zzz" none
          "dddddd").clean 5000).1).cache 8 = none) := by
  refine ⟨?_, ?_, ?_⟩
  · intro h c now prompt mt e hl hexp
    show (match lookupKey c.cache (h prompt mt) with
          | some cached =>
              if cached.is_valid now then some cached.response else none
          | none => none) = none
    rw [hl]
    show (if e.is_valid now then some e.response else none) = none
    have hv : e.is_valid now = false := by
      unfold CachedResponse.is_valid
      simp
      omega
    rw [hv]
    simp
  · intro c now k e hnd hl
    show lookupKey ((((c.cache.filter
          (fun kv => !(kv.2.is_valid now))).map Prod.fst).foldl
          (fun acc k => acc.remove_entry k) c)).cache k = _
    rw [foldl_remove_cache, lookupKey_foldl_eraseKey]
    by_cases hv : e.is_valid now
    · rw [if_neg, hl, if_pos hv]
      rw [mem_expired_iff c now k e hnd hl]
      simp [hv]
    · rw [if_pos ((mem_expired_iff c now k e hnd hl).mpr (by simpa using hv)),
        if_neg hv]
  · rw [demo_insert]
    refine ⟨by decide, by decide, by decide, by decide, by decide, ?_⟩
    decide

/-- Witness for C10: reading the expired demo entry (fingerprint 8, via
an 8-character prompt under `h0`) at time 5000 yields `None`. -/
theorem c10_expired_entries_witness :
    ResponseCache.get h0 demoCache 5000 "abcdefgh" none = none :=
  c10_expired_entries.1 h0 demoCache 5000 "abcdefgh" none demoExpired
    (by decide) (by decide)
